import Mathlib

/-!
# A verification model of the `linda` filesystem tuple space

This file gives a shallow embedding of `linda.py`, a tuple space implemented
on top of a shared directory.  The directory is modelled as an association
list from filenames to payloads (byte lists); filesystem-atomic operations
(`rename`, `unlink`, exclusive lock creation) become pure list operations.
Wall-clock time is passed explicitly as an integer epoch second (`time.time()`
compared against an integer expiry is equivalent to comparing its floor).
Randomness (the tuple filename suffix) and lock contention by foreign
processes are oracle parameters (`tok`, `lockBusy`).

Python-specific behaviours embedded here were checked against CPython 3.11:
* `int(s)` accepts surrounding ASCII whitespace, one optional sign, and
  ASCII digits with single underscores between digits (non-ASCII digits are
  outside the model's character set of interest and are not modelled);
* `f"{n:08d}"` zero-pads to a total width of 8 including any sign;
* `pathlib.Path.glob` matches dot-files (hidden-file skipping in the source
  is done by explicit `startswith('.')` checks only), and supports `*` / `?`
  (character classes `[...]` are never produced by this store's callers and
  are not modelled; other characters match literally);
* `sorted` on paths of one directory is lexicographic on the filename by
  code point, shorter prefixes first.
-/

namespace Linda

/-- A tuple payload: an opaque byte sequence. -/
abbrev Payload := List Nat

/-- The shared tuple directory: filenames with their file contents.
Filenames are unique (it is a filesystem directory). -/
abbrev Store := List (String × Payload)

/-- Per-name FIFO sequence state: the text content of the hidden
`.{name}.seq` file, keyed by tuple name.  These files are dot-hidden and
skipped by every enumeration in the source, so they are kept as separate
state; `clear` removes them like everything else. -/
abbrev Seqs := List (String × String)

/-! ## Embedding of Python `int(...)` on strings -/

/-- ASCII whitespace stripped by Python's `str.strip` / `int`. -/
def isPySpace (c : Char) : Bool :=
  c = ' ' || c = '\t' || c = '\n' || c = '\x0d' || c = '\x0b' || c = '\x0c'

/-- Strip leading and trailing ASCII whitespace. -/
def stripWs (cs : List Char) : List Char :=
  ((cs.dropWhile isPySpace).reverse.dropWhile isPySpace).reverse

/-- After one digit, Python `int` accepts further digits with single
underscores strictly between digits. -/
def digitsTail : List Char → Bool
  | [] => true
  | ['_'] => false
  | '_' :: d :: rest => d.isDigit && digitsTail rest
  | c :: rest => c.isDigit && digitsTail rest

/-- A nonempty digit run with single underscores between digits. -/
def digitsU : List Char → Bool
  | [] => false
  | c :: rest => c.isDigit && digitsTail rest

/-- Numeric value of a digit-and-underscore run. -/
def digitsVal (cs : List Char) : Nat :=
  (cs.filter (· ≠ '_')).foldl (fun a c => 10 * a + (c.toNat - 48)) 0

/-- Embedding of Python `int(s)` for ASCII strings: `none` models a
`ValueError`.  Python's `int` also accepts non-ASCII decimal digits
(`int("٥") = 5`), which this embedding rejects; a claim that quantifies
over raw identifiers therefore restricts them to ASCII, while identifiers
built by `out` are ASCII by construction wherever their tokens are. -/
def pyInt (s : String) : Option Int :=
  match stripWs s.toList with
  | '+' :: rest => if digitsU rest then some (digitsVal rest : Int) else none
  | '-' :: rest => if digitsU rest then some (-(digitsVal rest : Int)) else none
  | rest => if digitsU rest then some (digitsVal rest : Int) else none

/-! ## The entry codec: `_parse_filename` and `_is_expired` -/

/-- Result of `_parse_filename`: `(name, expiry, base)`. -/
structure ParsedName where
  name : String
  expiry : Int
  base : String
deriving Repr, DecidableEq

/-- `s.rsplit('.', 1)` on character lists: split at the *last* dot, `none`
when there is no dot. -/
def rsplitDot : List Char → Option (List Char × List Char)
  | [] => none
  | c :: rest =>
    match rsplitDot rest with
    | some (a, b) => some (c :: a, b)
    | none => if c = '.' then some ([], rest) else none

/-- Embedding of `_parse_filename`: strip a final `.<int>` extension when it
parses as a Python int (else fold it back into the name), then the name is
everything before the first hyphen of the remaining base. -/
def parse_filename (filename : String) : ParsedName :=
  let cs := filename.toList
  let be : List Char × Int :=
    match rsplitDot cs with
    | some (b, ext) =>
      match pyInt (String.mk ext) with
      | some e => (b, e)
      | none => (cs, 0)
    | none => (cs, 0)
  { name := String.mk (be.1.takeWhile (· ≠ '-'))
    expiry := be.2
    base := String.mk be.1 }

/-- Embedding of `_is_expired` at integer epoch second `now`: nonzero parsed
expiry that `now` has reached.  (`_parse_filename` is total, so the
`except ValueError` branch in the source never fires.) -/
def is_expired (filename : String) (now : Int) : Bool :=
  let p := parse_filename filename
  decide (p.expiry ≠ 0) && decide (p.expiry ≤ now)

/-! ## Glob matching (`pathlib.Path.glob` on one directory level) -/

/-- fnmatch-style matching: `*` matches any sequence, `?` any single
character, anything else itself.  Dot-files get no special treatment
(checked against CPython 3.11 `pathlib`).  fnmatch character classes
`[...]` are *not* modelled — `[` here matches itself — so this matcher
agrees with `pathlib.Path.glob` exactly on patterns free of `[`; every
claim quantifying over a pattern or plain name therefore excludes `*`,
`?` and `[` alike. -/
def globMatch : List Char → List Char → Bool
  | [], s => s.isEmpty
  | p :: ps, s =>
    if p = '*' then (List.range (s.length + 1)).any (fun i => globMatch ps (s.drop i))
    else
      match s with
      | [] => false
      | c :: cs => (if p = '?' then true else p = c) && globMatch ps cs

/-- `'c' in s` on a string, via its character list. -/
def strContains (s : String) (c : Char) : Bool := s.toList.contains c

/-- Python string `<`: lexicographic by code point, a proper prefix coming
first. -/
def listLexLt : List Char → List Char → Bool
  | [], [] => false
  | [], _ :: _ => true
  | _ :: _, [] => false
  | a :: as, b :: bs =>
    if a.toNat < b.toNat then true
    else if a = b then listLexLt as bs
    else false

/-- Python string `<=` (the sort order of `sorted`). -/
def strLe (a b : String) : Bool := !listLexLt b.toList a.toList

/-- `sorted` on same-directory paths / strings. -/
def pySorted (l : List String) : List String :=
  List.insertionSort (fun a b => strLe a b = true) l

/-- `filename.startswith('.')`: the hidden-file test used throughout. -/
def hiddenName (f : String) : Bool :=
  match f.toList with
  | [] => false
  | c :: _ => c = '.'

/-- The search pattern actually used by `_find_matching_tuples` and `ls`:
a pattern with no `*`/`?` wildcard gets `*` appended (prefix search). -/
def effectivePattern (pattern : String) : String :=
  if strContains pattern '*' || strContains pattern '?' then pattern else pattern ++ "*"

/-! ## Directory primitives -/

/-- Atomic rename into `f`: replaces any existing entry of that name. -/
def writeFile (st : Store) (f : String) (d : Payload) : Store :=
  st.filter (fun e => !(e.1 == f)) ++ [(f, d)]

/-- `unlink` (with `missing_ok`): drop the entry of that name, if present. -/
def removeFile (st : Store) (f : String) : Store :=
  st.filter (fun e => !(e.1 == f))

/-- Embedding of `_cleanup_expired`: for every non-hidden expired filename,
remove it and its `.lock` side-file. -/
def cleanup_expired (st : Store) (now : Int) : Store :=
  let doomed := (st.map (·.1)).filter (fun f => !hiddenName f && is_expired f now)
  st.filter (fun e => !(doomed.any (fun d => e.1 == d || e.1 == d ++ ".lock")))

/-- Embedding of `_find_matching_tuples`: non-hidden, non-expired filenames
matching the (wildcard-extended) pattern, sorted as Python `sorted` sorts
same-directory paths (lexicographically by code point). -/
def find_matching_tuples (pattern : String) (st : Store) (now : Int) : List String :=
  let pat := (effectivePattern pattern).toList
  let ms := (st.map (·.1)).filter (fun f =>
    globMatch pat f.toList && !hiddenName f && !is_expired f now)
  pySorted ms

/-! ## Sequence generator (`_next_seq`) -/

/-- Embedding of `f"{seq:08d}"`: fixed-width decimal where the width-8
zero padding includes any sign, wider numbers printed in full. -/
def fixedDigits : Nat → Nat → List Char
  | 0, _ => []
  | w + 1, n => Nat.digitChar ((n / 10 ^ w) % 10) :: fixedDigits w n

/-- Python `f"{i:08d}"`. -/
def fmt08 (i : Int) : String :=
  if 0 ≤ i then
    if i < 100000000 then String.mk (fixedDigits 8 i.toNat) else toString i
  else
    if -i < 10000000 then "-" ++ String.mk (fixedDigits 7 (-i).toNat) else toString i

/-- The lock side-file guarding the `.{name}.seq` counter file. -/
def seqLockName (name : String) : String := "." ++ name ++ ".seq.lock"

/-- Embedding of `_next_seq` under an uncontended counter lock: read the
current counter text (0 if absent or unparsable), increment, persist, and
return the `-{seq:08d}` filename fragment. -/
def next_seq (name : String) (seqs : Seqs) : String × Seqs :=
  let cur : Int :=
    match seqs.lookup name with
    | some txt => (pyInt txt).getD 0
    | none => 0
  let s := fmt08 (cur + 1)
  ("-" ++ s, (name, s) :: seqs.filter (fun e => !(e.1 == name)))

/-! ## The store API -/

/-- Errors crossing the public API boundary (`ValueError`, `TupleNotFound`,
`TimeoutError`) plus `LockTimeout`, which the spec says should stay
internal. -/
inductive PubErr where
  | notFound
  | timedOut
  | lockTimeout
  | valueError
deriving DecidableEq, Repr

/-- The filename built by `out`.  `seqPart` is the `_next_seq` fragment
(empty outside seq mode); `tok` is the random 8-hex-character suffix drawn
by `_random_suffix` (absent in rep mode). -/
def outFilename (name : String) (ttl : Int) (mode : Option String)
    (seqPart tok : String) (now : Int) : String :=
  let expiry : Int := if ttl > 0 then now + ttl else 0
  let suffixPart := if mode ≠ some "rep" then "-" ++ tok else ""
  let expiryPart := if expiry > 0 then "." ++ toString expiry else ""
  name ++ seqPart ++ suffixPart ++ expiryPart

/-- Embedding of `out` (keyword-argument path, after the `*args` parsing):
sweep, validate, obtain a sequence number in seq mode (surfacing
`LockTimeout` when a live foreign process holds the counter lock for the
whole attempt, as `lockBusy` models), then atomically rename the payload
into place. -/
def out (name : String) (data : Payload) (ttl : Int) (mode : Option String)
    (now : Int) (tok : String) (lockBusy : String → Bool)
    (st : Store) (seqs : Seqs) : Except PubErr (Store × Seqs) :=
  let st1 := cleanup_expired st now
  if ttl < 0 then .error .valueError
  else if ¬(mode = none ∨ mode = some "seq" ∨ mode = some "rep") then .error .valueError
  else if mode = some "seq" ∧ lockBusy (seqLockName name) then .error .lockTimeout
  else
    let sp := if mode = some "seq" then next_seq name seqs else ("", seqs)
    .ok (writeFile st1 (outFilename name ttl mode sp.1 tok now) data, sp.2)

/-- The consume path of `_try_read_tuple_atomic`: walk the sorted candidates;
a candidate whose lock is held by a live foreign process (`LockTimeout`) or
that has vanished is skipped; the first one locked is read, deleted and
returned. -/
def consumeCandidates (st : Store) (lockBusy : String → Bool) :
    List String → Option (Payload × Store)
  | [] => none
  | f :: rest =>
    if lockBusy (f ++ ".lock") then consumeCandidates st lockBusy rest
    else
      match st.lookup f with
      | some d => some (d, removeFile st f)
      | none => consumeCandidates st lockBusy rest

/-- The peek path of `_try_read_tuple_atomic`: read the first candidate that
still exists, locking nothing and deleting nothing. -/
def readCandidates (st : Store) : List String → Option (Payload × Store)
  | [] => none
  | f :: rest =>
    match st.lookup f with
    | some d => some (d, st)
    | none => readCandidates st rest

/-- One discovery-plus-attempt pass of `_try_read_tuple_atomic`; the Bool is
the source's `found_any`. -/
def tryReadPass (pattern : String) (consume : Bool) (st : Store)
    (lockBusy : String → Bool) (now : Int) : Option (Payload × Store) × Bool :=
  let ms := find_matching_tuples pattern st now
  (if consume then consumeCandidates st lockBusy ms else readCandidates st ms, !ms.isEmpty)

/-- The `while retry_count < 2` loop: a pass that yields nothing raises
`TupleNotFound` at once when nothing matched, else retries, and gives up
after the bounded retries. -/
def tryReadLoop (pattern : String) (consume : Bool) (st : Store)
    (lockBusy : String → Bool) (now : Int) : Nat → Except Unit (Payload × Store)
  | 0 => .error ()
  | fuel + 1 =>
    match tryReadPass pattern consume st lockBusy now with
    | (some r, _) => .ok r
    | (none, foundAny) =>
      if foundAny then tryReadLoop pattern consume st lockBusy now fuel else .error ()

/-- Embedding of `_try_read_tuple_atomic` (its retry budget is 2). -/
def try_read_tuple_atomic (pattern : String) (consume : Bool) (st : Store)
    (lockBusy : String → Bool) (now : Int) : Except Unit (Payload × Store) :=
  tryReadLoop pattern consume st lockBusy now 2

/-- `inp(pattern, once)`: sweep, then a single atomic consume attempt;
failure is `TupleNotFound`. -/
def inpOnce (pattern : String) (st : Store) (lockBusy : String → Bool)
    (now : Int) : Except PubErr (Payload × Store) :=
  match try_read_tuple_atomic pattern true (cleanup_expired st now) lockBusy now with
  | .ok r => .ok r
  | .error _ => .error .notFound

/-- `rd(pattern, once)`: sweep, then a single atomic peek attempt. -/
def rdOnce (pattern : String) (st : Store) (lockBusy : String → Bool)
    (now : Int) : Except PubErr (Payload × Store) :=
  match try_read_tuple_atomic pattern false (cleanup_expired st now) lockBusy now with
  | .ok r => .ok r
  | .error _ => .error .notFound

/-- Python dict counting: bump an existing key in place, else append. -/
def bumpCount : List (String × Nat) → String → List (String × Nat)
  | [], n => [(n, 1)]
  | (m, c) :: rest, n =>
    if m = n then (m, c + 1) :: rest else (m, c) :: bumpCount rest n

/-- The name-count accumulation of `ls` over a directory snapshot. -/
def lsCounts (pattern : String) (st : Store) (now : Int) : List (String × Nat) :=
  let pat := (effectivePattern pattern).toList
  (st.map (·.1)).foldl (fun acc f =>
    if globMatch pat f.toList && !hiddenName f && !is_expired f now then
      bumpCount acc (parse_filename f).name
    else acc) []

/-- Embedding of `ls`: sweep, count matching non-hidden non-expired entries
by decoded name, format as `f"{count} {name}"`, and sort. -/
def ls (pattern : String) (st : Store) (now : Int) : List String :=
  let st1 := cleanup_expired st now
  pySorted ((lsCounts pattern st1 now).map (fun p => toString p.2 ++ " " ++ p.1))

/-- Embedding of `clear`: `glob("*")` matches every directory entry,
dot-files included (checked against CPython 3.11), so everything goes —
tuples, stray locks, and sequence counters alike. -/
def clear (_ : Store) (_ : Seqs) : Store × Seqs := ([], [])

/-! ## The blocking wait loop (`_wait_for_tuple`) -/

/-- The `once` sentinel (`-1`) selecting non-blocking mode. -/
def once : ℚ := -1

/-- The fixed polling sleep of the blocking wait loop (0.1 s). -/
def pollInterval : ℚ := 1 / 10

/-- Observable outcomes of `_wait_for_tuple`. -/
inductive WaitOutcome where
  | success (d : Payload)
  | notFound
  | timedOut
deriving DecidableEq, Repr

/-- The elapsed-time check of `_wait_for_tuple` at iteration `k`:
`timeout is not None and timeout > 0` and `elapsed >= timeout`, with
`elapsed` being `k` polling intervals. -/
def timeoutHit (timeout : Option ℚ) (k : Nat) : Bool :=
  match timeout with
  | some t => decide (0 < t) && decide (t ≤ (k : ℚ) * pollInterval)
  | none => false

/-- The blocking retry loop of `_wait_for_tuple`.  `tryAt k` is the outcome
of the `_try_read_tuple_atomic` call in iteration `k` (the store may change
between polls); the elapsed wall-clock time at the timeout check of
iteration `k` is `k` polling intervals.  `fuel` bounds how many iterations
we observe: `none` means the loop is still running after `fuel` iterations. -/
def waitLoop (tryAt : Nat → Except Unit Payload) (timeout : Option ℚ) :
    Nat → Nat → Option WaitOutcome
  | _, 0 => none
  | k, fuel + 1 =>
    match tryAt k with
    | .ok d => some (.success d)
    | .error _ =>
      if timeoutHit timeout k then some .timedOut
      else waitLoop tryAt timeout (k + 1) fuel

/-- Embedding of `_wait_for_tuple`: the `once` sentinel makes exactly one
attempt and surfaces `TupleNotFound`; otherwise the polling loop runs, with
the elapsed-time check active only for a positive timeout. -/
def wait_for_tuple (tryAt : Nat → Except Unit Payload) (timeout : Option ℚ)
    (fuel : Nat) : Option WaitOutcome :=
  if timeout = some once then
    some (match tryAt 0 with
          | .ok d => .success d
          | .error _ => .notFound)
  else waitLoop tryAt timeout 0 fuel

/-- The discovery attempt `inp` feeds to the wait loop for a given directory
state (payload only; consumption updates the store between polls). -/
def inpTry (pattern : String) (st : Store) (lockBusy : String → Bool)
    (now : Int) : Except Unit Payload :=
  (try_read_tuple_atomic pattern true st lockBusy now).map Prod.fst

/-- The identifiers of the live entries currently stored for name `n`:
non-hidden, non-expired, decoding to exactly `n`.  This is the spec's
"live Entry for a name", used to state the replace-mode claims. -/
def liveEntriesFor (n : String) (st : Store) (now : Int) : List String :=
  (st.map (·.1)).filter (fun f =>
    !hiddenName f && !is_expired f now && ((parse_filename f).name == n))

/-- The lock environment of a quiescent store: no foreign process holds any
lock (the sequential reading of the claims). -/
def noLocks : String → Bool := fun _ => false

/-- A lock environment in which exactly the lock file `g` is held by a live
foreign process for the duration of the call. -/
def busyOn (g : String) : String → Bool := fun f => f == g

/-- A lowercase hex character, as drawn by `_random_suffix`. -/
def isHexDigitChar (c : Char) : Bool :=
  (48 ≤ c.toNat && c.toNat ≤ 57) || (97 ≤ c.toNat && c.toNat ≤ 102)

/-- A possible value of `_random_suffix()`: 8 lowercase hex characters. -/
def validTok (tok : String) : Prop :=
  tok.toList.length = 8 ∧ ∀ c ∈ tok.toList, isHexDigitChar c = true

/-- A token containing at least one alphabetic hex character.  Such a token
can never be (part of) a parsable numeric expiry extension. -/
def tokHasLetter (tok : String) : Prop :=
  ∃ c ∈ tok.toList, 97 ≤ c.toNat

/-! ## The spec's identifier grammar

Modelled from the spec: the §6 entry identifier grammar
`<name>[-<sequence8>][-<token>][.<expiry>]`, where `sequence8` is an
8-digit zero-padded decimal, `token` a nonempty alphanumeric string,
`expiry` a nonempty decimal integer, and `name` is free of the reserved
delimiters `-` and `.` that partition the grammar (the spec's §3/§9 "name
excludes reserved delimiter misuse").  The source has no such checker —
that is what claim C8 is about — so this definition follows the spec's
words, for comparison with the source's lenient decoder. -/

/-- An 8-digit zero-padded sequence block. -/
def isSeq8 (cs : List Char) : Bool := (cs.length == 8) && cs.all Char.isDigit

/-- The optional `.<expiry>` suffix (or nothing). -/
def grammarExpiryPart : List Char → Bool
  | [] => true
  | '.' :: e => (!e.isEmpty) && e.all Char.isDigit
  | _ => false

/-- What may follow the name or the sequence block:
`[-<token>][.<expiry>]`. -/
def grammarAfterSeq (cs : List Char) : Bool :=
  match cs with
  | '-' :: r =>
    let run := r.takeWhile Char.isAlphanum
    (!run.isEmpty) && grammarExpiryPart (r.drop run.length)
  | rest => grammarExpiryPart rest

/-- What may follow the name: `[-<sequence8>][-<token>][.<expiry>]`. -/
def grammarAfterName (cs : List Char) : Bool :=
  grammarAfterSeq cs ||
  (match cs with
   | '-' :: r => isSeq8 (r.take 8) && grammarAfterSeq (r.drop 8)
   | _ => false)

/-- Acceptance by the spec's identifier grammar.  In any decomposition the
name is delimiter-free and is followed by a delimiter or the end, so it is
exactly the maximal delimiter-free prefix. -/
def grammarOK (id : String) : Bool :=
  let cs := id.toList
  let nm := cs.takeWhile (fun c => c ≠ '-' && c ≠ '.')
  grammarAfterName (cs.drop nm.length)

/-! ## Supporting lemmas: characters -/

lemma isDigit_iff {c : Char} : c.isDigit = true ↔ 48 ≤ c.toNat ∧ c.toNat ≤ 57 := by
  simp only [Char.isDigit, Bool.and_eq_true, decide_eq_true_eq]
  exact Iff.rfl

lemma digitChar_toNat {k : Nat} (hk : k < 10) : (Nat.digitChar k).toNat = 48 + k := by
  interval_cases k <;> decide

lemma digitChar_isDigit {k : Nat} (hk : k < 10) : (Nat.digitChar k).isDigit = true := by
  interval_cases k <;> decide

lemma isPySpace_eq_false {c : Char} (h : 43 ≤ c.toNat) : isPySpace c = false := by
  simp only [isPySpace, Bool.or_eq_false_iff, decide_eq_false_iff_not]
  refine ⟨⟨⟨⟨⟨?_, ?_⟩, ?_⟩, ?_⟩, ?_⟩, ?_⟩ <;> (rintro rfl; exact absurd h (by decide))

lemma isDigit_isPySpace {c : Char} (h : c.isDigit = true) : isPySpace c = false :=
  isPySpace_eq_false (by rcases isDigit_iff.mp h with ⟨h1, _⟩; omega)

lemma isDigit_ne_underscore {c : Char} (h : c.isDigit = true) : c ≠ '_' := by
  rintro rfl; exact absurd h (by decide)

lemma letter_not_isDigit {c : Char} (h : 97 ≤ c.toNat) : c.isDigit = false := by
  rw [Bool.eq_false_iff]
  intro hd
  rcases isDigit_iff.mp hd with ⟨_, h2⟩
  omega

/-! ## Supporting lemmas: Python `int` -/

lemma dropWhile_eq_self_of {p : Char → Bool} {cs : List Char}
    (h : ∀ c ∈ cs, p c = false) : cs.dropWhile p = cs := by
  cases cs with
  | nil => rfl
  | cons c rest =>
    rw [List.dropWhile_cons, if_neg]
    simp [h c (by simp)]

lemma stripWs_eq_self {cs : List Char} (h : ∀ c ∈ cs, isPySpace c = false) :
    stripWs cs = cs := by
  unfold stripWs
  rw [dropWhile_eq_self_of h, dropWhile_eq_self_of (fun c hc => h c (by simpa using hc)),
    List.reverse_reverse]

lemma mem_dropWhile_of_mem {p : Char → Bool} {cs : List Char} {c : Char}
    (hc : c ∈ cs) (hp : p c = false) : c ∈ cs.dropWhile p := by
  induction cs with
  | nil => cases hc
  | cons a rest ih =>
    rw [List.dropWhile_cons]
    by_cases ha : p a = true
    · rw [if_pos ha]
      rcases List.mem_cons.mp hc with rfl | hm
      · rw [hp] at ha; cases ha
      · exact ih hm
    · rw [if_neg ha]; exact hc

lemma mem_stripWs_of_mem {cs : List Char} {c : Char}
    (hc : c ∈ cs) (hp : isPySpace c = false) : c ∈ stripWs cs := by
  unfold stripWs
  rw [List.mem_reverse]
  exact mem_dropWhile_of_mem (by rw [List.mem_reverse]; exact mem_dropWhile_of_mem hc hp) hp

lemma digitsTail_mem {cs : List Char} (h : digitsTail cs = true) :
    ∀ c ∈ cs, c.isDigit = true ∨ c = '_' := by
  induction cs using digitsTail.induct with
  | case1 => intro c hc; cases hc
  | case2 => rw [digitsTail] at h; cases h
  | case3 d rest ih =>
    rw [digitsTail, Bool.and_eq_true] at h
    intro c hc
    rcases List.mem_cons.mp hc with rfl | hc2
    · exact Or.inr rfl
    · rcases List.mem_cons.mp hc2 with rfl | hc3
      · exact Or.inl h.1
      · exact ih h.2 c hc3
  | case4 a rest hne1 hne2 ih =>
    rw [digitsTail] at h
    · rw [Bool.and_eq_true] at h
      intro c hc
      rcases List.mem_cons.mp hc with rfl | hc2
      · exact Or.inl h.1
      · exact ih h.2 c hc2
    · exact hne1
    · exact hne2

lemma digitsTail_of_digits {cs : List Char} (h : ∀ c ∈ cs, c.isDigit = true) :
    digitsTail cs = true := by
  induction cs using digitsTail.induct with
  | case1 => rfl
  | case2 => exact absurd (h '_' (by simp)) (by decide)
  | case3 d rest ih =>
    exact absurd (h '_' (by simp)) (by decide)
  | case4 a rest hne1 hne2 ih =>
    rw [digitsTail]
    · rw [Bool.and_eq_true]
      exact ⟨h a (by simp), ih fun c hc => h c (List.mem_cons_of_mem _ hc)⟩
    · exact hne1
    · exact hne2

lemma digitsU_of_digits {cs : List Char} (hne : cs ≠ [])
    (h : ∀ c ∈ cs, c.isDigit = true) : digitsU cs = true := by
  cases cs with
  | nil => cases hne rfl
  | cons c rest =>
    rw [digitsU, Bool.and_eq_true]
    exact ⟨h c (by simp), digitsTail_of_digits fun d hd => h d (List.mem_cons_of_mem _ hd)⟩

lemma digitsU_mem {cs : List Char} (h : digitsU cs = true) :
    ∀ c ∈ cs, c.isDigit = true ∨ c = '_' := by
  cases cs with
  | nil => intro c hc; cases hc
  | cons a rest =>
    rw [digitsU, Bool.and_eq_true] at h
    intro c hc
    rcases List.mem_cons.mp hc with rfl | hc2
    · exact Or.inl h.1
    · exact digitsTail_mem h.2 c hc2

/-- A lowercase letter anywhere in the string makes Python `int` fail. -/
lemma pyInt_none_of_letter {s : String} {c : Char} (hc : c ∈ s.toList)
    (h1 : 97 ≤ c.toNat) (h2 : c.toNat ≤ 122) : pyInt s = none := by
  have hsp : isPySpace c = false := isPySpace_eq_false (by omega)
  have hmem : c ∈ stripWs s.toList := mem_stripWs_of_mem hc hsp
  have hnd : ∀ cs : List Char, c ∈ cs → digitsU cs = false := by
    intro cs hcs
    rw [Bool.eq_false_iff]
    intro hU
    rcases digitsU_mem hU c hcs with hd | hu
    · rw [letter_not_isDigit h1] at hd; cases hd
    · subst hu; exact absurd h1 (by decide)
  rw [pyInt]
  split
  · rename_i rest heq
    rw [heq] at hmem
    have hcr : c ∈ rest := by
      rcases List.mem_cons.mp hmem with rfl | hm
      · exact absurd h1 (by decide)
      · exact hm
    simp [hnd rest hcr]
  · rename_i rest heq
    rw [heq] at hmem
    have hcr : c ∈ rest := by
      rcases List.mem_cons.mp hmem with rfl | hm
      · exact absurd h1 (by decide)
      · exact hm
    simp [hnd rest hcr]
  · have hfalse := hnd _ hmem
    rw [if_neg]
    intro hcontra
    rw [hfalse] at hcontra
    cases hcontra

/-- Python `int` on a plain nonempty digit string. -/
lemma pyInt_digits {cs : List Char} (hne : cs ≠ [])
    (h : ∀ c ∈ cs, c.isDigit = true) :
    pyInt (String.mk cs) = some (digitsVal cs : Int) := by
  have hstrip : stripWs (String.mk cs).toList = cs :=
    stripWs_eq_self fun c hc => isDigit_isPySpace (h c hc)
  rw [pyInt, hstrip]
  split
  · rename_i rest heq
    have : ('+').isDigit = true := h '+' (by simp)
    exact absurd this (by decide)
  · rename_i rest heq
    have : ('-').isDigit = true := h '-' (by simp)
    exact absurd this (by decide)
  · simp [digitsU_of_digits hne h]

lemma digitsVal_of_digits {cs : List Char} (h : ∀ c ∈ cs, c.isDigit = true) :
    digitsVal cs = cs.foldl (fun a c => 10 * a + (c.toNat - 48)) 0 := by
  unfold digitsVal
  rw [List.filter_eq_self.mpr]
  intro c hc
  simp [isDigit_ne_underscore (h c hc)]

/-! ## Supporting lemmas: fixed-width digit strings and their order -/

lemma fixedDigits_isDigit {w n : Nat} : ∀ c ∈ fixedDigits w n, c.isDigit = true := by
  induction w generalizing n with
  | zero => intro c hc; cases hc
  | succ w ih =>
    intro c hc
    rcases List.mem_cons.mp hc with rfl | hm
    · exact digitChar_isDigit (Nat.mod_lt _ (by norm_num))
    · exact ih c hm

lemma foldVal_fixedDigits (w n : Nat) :
    ∀ a, (fixedDigits w n).foldl (fun a c => 10 * a + (c.toNat - 48)) a
      = a * 10 ^ w + n % 10 ^ w := by
  induction w generalizing n with
  | zero => intro a; simp [fixedDigits, Nat.mod_one]
  | succ w ih =>
    intro a
    rw [fixedDigits, List.foldl_cons, digitChar_toNat (Nat.mod_lt _ (by norm_num))]
    have hsub : 10 * a + (48 + n / 10 ^ w % 10 - 48) = 10 * a + n / 10 ^ w % 10 := by omega
    rw [hsub, ih]
    have hmod : n % 10 ^ (w + 1) = n % 10 ^ w + 10 ^ w * (n / 10 ^ w % 10) :=
      Nat.mod_pow_succ
    rw [hmod, pow_succ]
    ring

lemma digitsVal_fixedDigits (w n : Nat) : digitsVal (fixedDigits w n) = n % 10 ^ w := by
  rw [digitsVal_of_digits fixedDigits_isDigit]
  simpa using foldVal_fixedDigits w n 0

lemma fixedDigits_mod (w n : Nat) : fixedDigits w (n % 10 ^ w) = fixedDigits w n := by
  induction w generalizing n with
  | zero => rfl
  | succ w ih =>
    rw [fixedDigits, fixedDigits]
    have hpos : 0 < 10 ^ w := Nat.pos_pow_of_pos w (by norm_num)
    have hdiv : n % 10 ^ (w + 1) / 10 ^ w = n / 10 ^ w % 10 := by
      rw [Nat.mod_pow_succ, Nat.add_mul_div_left _ _ hpos,
        Nat.div_eq_of_lt (Nat.mod_lt _ hpos), Nat.zero_add]
    have htail : fixedDigits w (n % 10 ^ (w + 1)) = fixedDigits w n := by
      rw [← ih (n % 10 ^ (w + 1)), ← ih n]
      congr 1
      rw [Nat.mod_mod_of_dvd _ (by rw [pow_succ]; exact Dvd.intro 10 rfl)]
    rw [hdiv, htail, Nat.mod_mod_of_dvd _ dvd_rfl]

lemma listLexLt_irrefl (cs : List Char) : listLexLt cs cs = false := by
  induction cs with
  | nil => rfl
  | cons c rest ih =>
    rw [listLexLt, if_neg (lt_irrefl _), if_pos rfl]
    exact ih

lemma listLexLt_asymm : ∀ {a b : List Char},
    listLexLt a b = true → listLexLt b a = false
  | [], [], h => by cases h
  | [], _ :: _, _ => rfl
  | _ :: _, [], h => by cases h
  | a :: as, b :: bs, h => by
    rw [listLexLt] at h ⊢
    by_cases h1 : a.toNat < b.toNat
    · rw [if_neg (by omega), if_neg]
      intro he; rw [he] at h1; omega
    · rw [if_neg h1] at h
      by_cases h2 : a = b
      · rw [if_pos h2] at h
        rw [if_neg (by rw [h2]; omega), if_pos h2.symm]
        exact listLexLt_asymm h
      · rw [if_neg h2] at h; cases h

lemma listLexLt_append_same (p : List Char) (a b : List Char) :
    listLexLt (p ++ a) (p ++ b) = listLexLt a b := by
  induction p with
  | nil => rfl
  | cons c rest ih =>
    rw [List.cons_append, List.cons_append, listLexLt, if_neg (lt_irrefl _), if_pos rfl]
    exact ih

lemma fixedDigits_lex {w a b : Nat} (x y : List Char) (hab : a < b) (hb : b < 10 ^ w) :
    listLexLt (fixedDigits w a ++ x) (fixedDigits w b ++ y) = true := by
  induction w generalizing a b with
  | zero => simp at hb; omega
  | succ w ih =>
    have hpos : 0 < 10 ^ w := Nat.pos_pow_of_pos w (by norm_num)
    have hda : a / 10 ^ w < 10 := by
      rw [Nat.div_lt_iff_lt_mul hpos]
      calc a < b := hab
        _ < 10 ^ (w + 1) := hb
        _ = 10 * 10 ^ w := by rw [pow_succ, Nat.mul_comm]
    have hdb : b / 10 ^ w < 10 := by
      rw [Nat.div_lt_iff_lt_mul hpos]
      calc b < 10 ^ (w + 1) := hb
        _ = 10 * 10 ^ w := by rw [pow_succ, Nat.mul_comm]
    have hdle : a / 10 ^ w ≤ b / 10 ^ w := Nat.div_le_div_right (le_of_lt hab)
    rw [fixedDigits, fixedDigits, List.cons_append, List.cons_append, listLexLt]
    rcases Nat.lt_or_ge (a / 10 ^ w) (b / 10 ^ w) with hlt | hge
    · rw [if_pos]
      rw [digitChar_toNat (Nat.mod_lt _ (by norm_num)),
        digitChar_toNat (Nat.mod_lt _ (by norm_num))]
      rw [Nat.mod_eq_of_lt hda, Nat.mod_eq_of_lt hdb]
      omega
    · have heqd : a / 10 ^ w = b / 10 ^ w := le_antisymm hdle hge
      rw [heqd, if_neg (lt_irrefl _), if_pos rfl]
      have hamod : a % 10 ^ w < b % 10 ^ w := by
        have ha' : 10 ^ w * (b / 10 ^ w) + a % 10 ^ w = a := by
          rw [← heqd]; exact Nat.div_add_mod a _
        have hb' : 10 ^ w * (b / 10 ^ w) + b % 10 ^ w = b := Nat.div_add_mod b _
        omega
      have := ih hamod (Nat.mod_lt _ hpos)
      rw [fixedDigits_mod, fixedDigits_mod] at this
      exact this

/-! ## Supporting lemmas: `Nat.repr` and `toString` of a positive `Int` -/

lemma toDigitsCore_append (b : Nat) :
    ∀ (fuel n : Nat) (ds : List Char),
      Nat.toDigitsCore b fuel n ds = Nat.toDigitsCore b fuel n [] ++ ds := by
  intro fuel
  induction fuel with
  | zero => intro n ds; rfl
  | succ fuel ih =>
    intro n ds
    by_cases h : n / b = 0
    · simp [Nat.toDigitsCore, h]
    · simp only [Nat.toDigitsCore, h, if_neg, if_false]
      rw [ih (n / b) (Nat.digitChar (n % b) :: ds), ih (n / b) [Nat.digitChar (n % b)]]
      simp

lemma toDigitsCore_isDigit :
    ∀ (fuel n : Nat) (ds : List Char), (∀ c ∈ ds, c.isDigit = true) →
      ∀ c ∈ Nat.toDigitsCore 10 fuel n ds, c.isDigit = true := by
  intro fuel
  induction fuel with
  | zero => intro n ds hds; exact hds
  | succ fuel ih =>
    intro n ds hds c hc
    rw [Nat.toDigitsCore] at hc
    by_cases h : n / 10 = 0
    · rw [if_pos h] at hc
      rcases List.mem_cons.mp hc with rfl | hm
      · exact digitChar_isDigit (Nat.mod_lt _ (by norm_num))
      · exact hds c hm
    · rw [if_neg h] at hc
      refine ih (n / 10) (Nat.digitChar (n % 10) :: ds) ?_ c hc
      intro d hd
      rcases List.mem_cons.mp hd with rfl | hm
      · exact digitChar_isDigit (Nat.mod_lt _ (by norm_num))
      · exact hds d hm

lemma toDigitsCore_ne_nil :
    ∀ (fuel n : Nat) (ds : List Char), Nat.toDigitsCore 10 (fuel + 1) n ds ≠ [] := by
  intro fuel
  induction fuel with
  | zero =>
    intro n ds
    rw [Nat.toDigitsCore]
    by_cases h : n / 10 = 0
    · rw [if_pos h]; exact List.cons_ne_nil _ _
    · rw [if_neg h]; exact List.cons_ne_nil _ _
  | succ fuel ih =>
    intro n ds
    rw [Nat.toDigitsCore]
    by_cases h : n / 10 = 0
    · rw [if_pos h]; exact List.cons_ne_nil _ _
    · rw [if_neg h]; exact ih (n / 10) _

lemma toDigitsCore_val :
    ∀ (fuel n : Nat), n ≤ fuel →
      (Nat.toDigitsCore 10 fuel n []).foldl (fun a c => 10 * a + (c.toNat - 48)) 0 = n := by
  intro fuel
  induction fuel with
  | zero =>
    intro n hn
    interval_cases n
    rfl
  | succ fuel ih =>
    intro n hn
    rw [Nat.toDigitsCore]
    by_cases h : n / 10 = 0
    · rw [if_pos h]
      have hn10 : n < 10 := by
        rcases Nat.lt_or_ge n 10 with h10 | h10
        · exact h10
        · exact absurd h (by
            have : 1 ≤ n / 10 := (Nat.le_div_iff_mul_le (by norm_num)).mpr (by omega)
            omega)
      rw [List.foldl_cons, digitChar_toNat (Nat.mod_lt _ (by norm_num))]
      simp [Nat.mod_eq_of_lt hn10]
    · rw [if_neg h]
      have hnpos : 0 < n := by
        by_contra hc
        push_neg at hc
        interval_cases n
        exact h rfl
      have hrec : n / 10 ≤ fuel := by
        have := Nat.div_lt_self hnpos (by norm_num : (1:Nat) < 10)
        omega
      rw [toDigitsCore_append 10 fuel (n / 10) [Nat.digitChar (n % 10)]]
      rw [List.foldl_append, ih (n / 10) hrec]
      rw [List.foldl_cons, digitChar_toNat (Nat.mod_lt _ (by norm_num))]
      simp only [List.foldl_nil]
      omega

lemma natRepr_toList (n : Nat) :
    (Nat.repr n).toList = Nat.toDigitsCore 10 (n + 1) n [] := rfl

lemma natRepr_isDigit (n : Nat) : ∀ c ∈ (Nat.repr n).toList, c.isDigit = true := by
  rw [natRepr_toList]
  exact toDigitsCore_isDigit (n + 1) n [] (by intro c hc; cases hc)

lemma natRepr_ne_nil (n : Nat) : (Nat.repr n).toList ≠ [] := by
  rw [natRepr_toList]
  exact toDigitsCore_ne_nil n n []

lemma pyInt_natRepr (n : Nat) : pyInt (Nat.repr n) = some (n : Int) := by
  have hd := natRepr_isDigit n
  have hmk : Nat.repr n = String.mk (Nat.repr n).toList := rfl
  rw [hmk, pyInt_digits (natRepr_ne_nil n) hd]
  congr 1
  rw [digitsVal_of_digits hd, natRepr_toList]
  exact congrArg _ (toDigitsCore_val (n + 1) n (by omega))

lemma toString_intOfNat (m : Nat) : toString (Int.ofNat m) = Nat.repr m := rfl

lemma pyInt_toString_pos {e : Int} (he : 0 < e) : pyInt (toString e) = some e := by
  cases e with
  | ofNat m =>
    rw [toString_intOfNat, pyInt_natRepr]
    rfl
  | negSucc m => exact absurd he (by exact of_decide_eq_false rfl)

lemma toString_pos_isDigit {e : Int} (he : 0 < e) :
    ∀ c ∈ (toString e).toList, c.isDigit = true := by
  cases e with
  | ofNat m => rw [toString_intOfNat]; exact natRepr_isDigit m
  | negSucc m => exact absurd he (by exact of_decide_eq_false rfl)

lemma isDigit_ne_dot {c : Char} (h : c.isDigit = true) : c ≠ '.' := by
  rintro rfl; exact absurd h (by decide)

lemma isDigit_ne_dash {c : Char} (h : c.isDigit = true) : c ≠ '-' := by
  rintro rfl; exact absurd h (by decide)

/-! ## Supporting lemmas: the filename decoder -/

lemma toList_mk (cs : List Char) : (String.mk cs).toList = cs := rfl

lemma rsplitDot_eq_none_iff {cs : List Char} : rsplitDot cs = none ↔ '.' ∉ cs := by
  induction cs with
  | nil => simp [rsplitDot]
  | cons c rest ih =>
    rw [rsplitDot]
    cases h : rsplitDot rest with
    | some p =>
      have hmem : '.' ∈ rest := by
        by_contra hd
        rw [ih.mpr hd] at h
        cases h
      simp [hmem]
    | none =>
      have hnr : '.' ∉ rest := ih.mp h
      by_cases hc : c = '.'
      · subst hc; simp
      · rw [if_neg hc]
        simp only [List.mem_cons, not_or, eq_self_iff_true, true_iff]
        exact ⟨fun h => hc h.symm, hnr⟩

lemma rsplitDot_append_of_not_mem {xs ys : List Char} (h : '.' ∉ ys) :
    rsplitDot (xs ++ ys) = (rsplitDot xs).map (fun p => (p.1, p.2 ++ ys)) := by
  induction xs with
  | nil =>
    rw [List.nil_append, rsplitDot_eq_none_iff.mpr h]
    rfl
  | cons c xs ih =>
    rw [List.cons_append, rsplitDot, rsplitDot, ih]
    cases hx : rsplitDot xs with
    | some p => rfl
    | none =>
      by_cases hc : c = '.'
      · subst hc; rfl
      · simp [hc]

lemma rsplitDot_append_dot {xs ys : List Char} (h : '.' ∉ ys) :
    rsplitDot (xs ++ '.' :: ys) = some (xs, ys) := by
  induction xs with
  | nil =>
    rw [List.nil_append, rsplitDot, rsplitDot_eq_none_iff.mpr h]
    rfl
  | cons c xs ih =>
    rw [List.cons_append, rsplitDot, ih]

lemma takeWhile_append_stop {p : Char → Bool} {xs ys : List Char} {y : Char}
    (hy : p y = false) : (xs ++ y :: ys).takeWhile p = xs.takeWhile p := by
  induction xs with
  | nil => simp [List.takeWhile_cons, hy]
  | cons c xs ih =>
    rw [List.cons_append, List.takeWhile_cons, List.takeWhile_cons]
    by_cases hc : p c = true
    · rw [if_pos hc, if_pos hc, ih]
    · rw [if_neg hc, if_neg hc]

lemma parse_filename_of_rsplit_none {cs : List Char} (h : rsplitDot cs = none) :
    parse_filename (String.mk cs) =
      ⟨String.mk (cs.takeWhile (· ≠ '-')), 0, String.mk cs⟩ := by
  simp only [parse_filename, toList_mk, h]

lemma parse_filename_of_pyInt_none {cs b ext : List Char}
    (h : rsplitDot cs = some (b, ext)) (hext : pyInt (String.mk ext) = none) :
    parse_filename (String.mk cs) =
      ⟨String.mk (cs.takeWhile (· ≠ '-')), 0, String.mk cs⟩ := by
  simp only [parse_filename, toList_mk, h, hext]

lemma parse_filename_of_pyInt_some {cs b ext : List Char} {e : Int}
    (h : rsplitDot cs = some (b, ext)) (hext : pyInt (String.mk ext) = some e) :
    parse_filename (String.mk cs) =
      ⟨String.mk (b.takeWhile (· ≠ '-')), e, String.mk b⟩ := by
  simp only [parse_filename, toList_mk, h, hext]

/-- Decoding an identifier of the form `name-…` where the part after the
first appended hyphen contains no dot and at least one lowercase letter
(e.g. the hex token has an alphabetic character): the expiry extension never
parses, so the expiry is 0 and the name is truncated at the first hyphen. -/
lemma parse_dash_tail (nm rest : List Char) (hdot : '.' ∉ rest)
    (hletter : ∃ c ∈ rest, 97 ≤ c.toNat ∧ c.toNat ≤ 122) :
    parse_filename (String.mk (nm ++ '-' :: rest)) =
      ⟨String.mk (nm.takeWhile (· ≠ '-')), 0, String.mk (nm ++ '-' :: rest)⟩ := by
  obtain ⟨c, hc, h97, h122⟩ := hletter
  have hdot' : '.' ∉ ('-' :: rest) := by
    intro hm
    rcases List.mem_cons.mp hm with h | h
    · cases h
    · exact hdot h
  have hsplit := @rsplitDot_append_of_not_mem nm _ hdot'
  have htake : (nm ++ '-' :: rest).takeWhile (· ≠ '-') = nm.takeWhile (· ≠ '-') :=
    takeWhile_append_stop (by simp)
  cases hnm : rsplitDot nm with
  | none =>
    rw [hnm] at hsplit
    rw [parse_filename_of_rsplit_none hsplit, htake]
  | some p =>
    rw [hnm] at hsplit
    have hext : pyInt (String.mk (p.2 ++ '-' :: rest)) = none := by
      refine pyInt_none_of_letter (c := c) ?_ h97 h122
      rw [toList_mk]
      exact List.mem_append_right _ (List.mem_cons_of_mem _ hc)
    rw [parse_filename_of_pyInt_none hsplit hext, htake]

/-- Decoding a replace-mode identifier with a positive expiry suffix. -/
lemma parse_dot_expiry (nm : List Char) {e : Int} (he : 0 < e) :
    parse_filename (String.mk (nm ++ '.' :: (toString e).toList)) =
      ⟨String.mk (nm.takeWhile (· ≠ '-')), e, String.mk nm⟩ := by
  have hdig := toString_pos_isDigit he
  have hdot : '.' ∉ (toString e).toList := fun hm => isDigit_ne_dot (hdig _ hm) rfl
  have hsplit := @rsplitDot_append_dot nm _ hdot
  have hext : pyInt (String.mk (toString e).toList) = some e := pyInt_toString_pos he
  exact parse_filename_of_pyInt_some hsplit hext

/-! ## Supporting lemmas: glob matching and string order -/

lemma globMatch_cons (c : Char) (ps s : List Char) :
    globMatch (c :: ps) s =
      if c = '*' then (List.range (s.length + 1)).any (fun i => globMatch ps (s.drop i))
      else
        match s with
        | [] => false
        | d :: ss => (if c = '?' then true else decide (c = d)) && globMatch ps ss := rfl

lemma globMatch_star (s : List Char) : globMatch ['*'] s = true := by
  rw [globMatch_cons, if_pos rfl, List.any_eq_true]
  exact ⟨s.length, List.mem_range.mpr (by omega), by rw [List.drop_length]; rfl⟩

lemma globMatch_cons_lit {c : Char} (hc1 : c ≠ '*') (hc2 : c ≠ '?')
    (ps s : List Char) :
    globMatch (c :: ps) s =
      match s with
      | [] => false
      | d :: ss => decide (c = d) && globMatch ps ss := by
  rw [globMatch_cons, if_neg hc1]
  cases s with
  | nil => rfl
  | cons d ss =>
    show ((if c = '?' then true else decide (c = d)) && globMatch ps ss)
        = (decide (c = d) && globMatch ps ss)
    rw [if_neg hc2]

lemma globMatch_append_star {p : List Char} (hp : ∀ c ∈ p, c ≠ '*' ∧ c ≠ '?') :
    ∀ s : List Char, globMatch (p ++ ['*']) s = true ↔ p <+: s := by
  induction p with
  | nil =>
    intro s
    rw [List.nil_append, globMatch_star]
    simp [List.nil_prefix]
  | cons c p ih =>
    intro s
    obtain ⟨hc1, hc2⟩ := hp c (by simp)
    have hp' : ∀ d ∈ p, d ≠ '*' ∧ d ≠ '?' := fun d hd => hp d (List.mem_cons_of_mem _ hd)
    rw [List.cons_append, globMatch_cons_lit hc1 hc2]
    cases s with
    | nil => simp
    | cons d ss =>
      simp only [Bool.and_eq_true, decide_eq_true_eq, ih hp' ss, List.cons_prefix_cons]

lemma strLe_refl (a : String) : strLe a a = true := by
  rw [strLe, listLexLt_irrefl]
  rfl

lemma strLe_of_lex {a b : String} (h : listLexLt a.toList b.toList = true) :
    strLe a b = true := by
  rw [strLe, listLexLt_asymm h]
  rfl

lemma pySorted_eq_self {l : List String}
    (h : List.Pairwise (fun a b => strLe a b = true) l) : pySorted l = l :=
  List.Sorted.insertionSort_eq h

lemma mem_pySorted {l : List String} {a : String} : a ∈ pySorted l ↔ a ∈ l :=
  (List.perm_insertionSort _ l).mem_iff

/-- Membership in the matcher's result, unravelled. -/
lemma mem_find_matching_tuples {pattern f : String} {st : Store} {now : Int} :
    f ∈ find_matching_tuples pattern st now ↔
      f ∈ st.map (·.1) ∧ globMatch (effectivePattern pattern).toList f.toList = true ∧
        hiddenName f = false ∧ is_expired f now = false := by
  simp only [find_matching_tuples]
  rw [mem_pySorted, List.mem_filter]
  simp only [Bool.and_eq_true, Bool.not_eq_true']
  tauto

/-! ## Supporting lemmas: hex tokens and identifier shapes -/

lemma toList_append (s t : String) : (s ++ t).toList = s.toList ++ t.toList :=
  String.data_append s t

lemma hex_toNat {c : Char} (h : isHexDigitChar c = true) :
    (48 ≤ c.toNat ∧ c.toNat ≤ 57) ∨ (97 ≤ c.toNat ∧ c.toNat ≤ 102) := by
  simp only [isHexDigitChar, Bool.or_eq_true, Bool.and_eq_true, decide_eq_true_eq] at h
  exact h

lemma hex_ne_dot {c : Char} (h : isHexDigitChar c = true) : c ≠ '.' := by
  rintro rfl
  have hv : ('.').toNat = 46 := by decide
  rcases hex_toNat h with ⟨h1, h2⟩ | ⟨h1, h2⟩ <;> omega

lemma hex_ne_k {c : Char} (h : isHexDigitChar c = true) : c ≠ 'k' := by
  rintro rfl
  have hv : ('k').toNat = 107 := by decide
  rcases hex_toNat h with ⟨h1, h2⟩ | ⟨h1, h2⟩ <;> omega

lemma lock_suffix_getLast (d : String) :
    ((d ++ ".lock").toList).getLast? = some 'k' := by
  rw [toList_append]
  rw [List.getLast?_append_of_ne_nil _ (by decide)]
  rfl

lemma ne_lock_suffix {f : String} (hf : f.toList.getLast? ≠ some 'k') :
    ∀ d : String, f ≠ d ++ ".lock" := by
  intro d he
  apply hf
  rw [he]
  exact lock_suffix_getLast d

/-- A filename ending in a hex token does not end in `'k'`. -/
lemma getLast_of_append_hex {xs : List Char} {tok : String}
    (hne : tok.toList ≠ [])
    (hhex : ∀ c ∈ tok.toList, isHexDigitChar c = true) :
    (xs ++ tok.toList).getLast? ≠ some 'k' := by
  rw [List.getLast?_append_of_ne_nil _ hne]
  intro h
  have hmem : 'k' ∈ tok.toList := List.mem_of_mem_getLast? (Option.mem_def.mpr h)
  exact hex_ne_k (hhex _ hmem) rfl

lemma is_expired_of_expiry_zero {f : String} {now : Int}
    (h : (parse_filename f).expiry = 0) : is_expired f now = false := by
  rw [is_expired]
  simp [h]

lemma effectivePattern_plain {n : String} (h : ∀ c ∈ n.toList, c ≠ '*' ∧ c ≠ '?') :
    effectivePattern n = n ++ "*" := by
  have hstar : ('*') ∉ n.toList := fun hm => (h _ hm).1 rfl
  have hq : ('?') ∉ n.toList := fun hm => (h _ hm).2 rfl
  have h1 : strContains n '*' = false := by
    rw [strContains, Bool.eq_false_iff]
    intro hc
    exact hstar (List.elem_iff.mp hc)
  have h2 : strContains n '?' = false := by
    rw [strContains, Bool.eq_false_iff]
    intro hc
    exact hq (List.elem_iff.mp hc)
  rw [effectivePattern, h1, h2]
  simp

lemma glob_iff_leading {n f : String} (hplain : ∀ c ∈ n.toList, c ≠ '*' ∧ c ≠ '?') :
    globMatch (effectivePattern n).toList f.toList = true ↔ n.toList <+: f.toList := by
  rw [effectivePattern_plain hplain, toList_append]
  exact globMatch_append_star hplain f.toList

/-! ## Supporting lemmas: directory operations -/

lemma cleanup_expired_subset {st : Store} {now : Int} :
    ∀ e ∈ cleanup_expired st now, e ∈ st := by
  intro e he
  exact (List.mem_filter.mp he).1

lemma mem_doomed_iff {st : Store} {now : Int} {d : String} :
    d ∈ (st.map (·.1)).filter (fun f => !hiddenName f && is_expired f now) ↔
      d ∈ st.map (·.1) ∧ hiddenName d = false ∧ is_expired d now = true := by
  rw [List.mem_filter, Bool.and_eq_true, Bool.not_eq_true']

/-- Appending entries that are alive and do not look like lock side-files
commutes with the sweeper. -/
lemma cleanup_append_clean {xs ys : Store} {now : Int}
    (hys : ∀ e ∈ ys, is_expired e.1 now = false ∧ e.1.toList.getLast? ≠ some 'k') :
    cleanup_expired (xs ++ ys) now = cleanup_expired xs now ++ ys := by
  have hdoomed :
      ((xs ++ ys).map (·.1)).filter (fun f => !hiddenName f && is_expired f now)
        = (xs.map (·.1)).filter (fun f => !hiddenName f && is_expired f now) := by
    rw [List.map_append, List.filter_append]
    have : (ys.map (·.1)).filter (fun f => !hiddenName f && is_expired f now) = [] := by
      rw [List.filter_eq_nil_iff]
      intro f hf
      obtain ⟨e, he, rfl⟩ := List.mem_map.mp hf
      simp [(hys e he).1]
    rw [this, List.append_nil]
  simp only [cleanup_expired, hdoomed]
  rw [List.filter_append]
  congr 1
  rw [List.filter_eq_self]
  intro e he
  rw [Bool.not_eq_true', List.any_eq_false]
  intro d hd
  rw [mem_doomed_iff] at hd
  simp only [Bool.or_eq_true, beq_iff_eq, not_or]
  constructor
  · intro hed
    have h1 := (hys e he).1
    rw [hed] at h1
    rw [h1] at hd
    exact Bool.false_ne_true hd.2.2
  · exact ne_lock_suffix (hys e he).2 d

lemma writeFile_fresh {xs : Store} {f : String} {d : Payload}
    (h : ∀ e ∈ xs, e.1 ≠ f) : writeFile xs f d = xs ++ [(f, d)] := by
  rw [writeFile]
  congr 1
  rw [List.filter_eq_self]
  intro e he
  simp [h e he]

lemma removeFile_append {xs ys : Store} {f : String}
    (h : ∀ e ∈ xs, e.1 ≠ f) :
    removeFile (xs ++ ys) f = xs ++ removeFile ys f := by
  rw [removeFile, removeFile, List.filter_append]
  congr 1
  rw [List.filter_eq_self]
  intro e he
  simp [h e he]

lemma removeFile_cons_self {ys : Store} {f : String} {d : Payload}
    (h : ∀ e ∈ ys, e.1 ≠ f) : removeFile ((f, d) :: ys) f = ys := by
  rw [removeFile, List.filter_cons]
  rw [if_neg (by simp)]
  rw [List.filter_eq_self]
  intro e he
  simp [h e he]

lemma lookup_middle {xs ys : Store} {f : String} {d : Payload}
    (h : ∀ e ∈ xs, e.1 ≠ f) :
    (xs ++ (f, d) :: ys).lookup f = some d := by
  induction xs with
  | nil => simp [List.lookup]
  | cons e xs ih =>
    have hne : (f == e.1) = false := by
      rw [beq_eq_false_iff_ne]
      exact Ne.symm (h e (by simp))
    rw [List.cons_append]
    show (match f == e.1 with
          | true => some e.2
          | false => List.lookup f (xs ++ (f, d) :: ys)) = some d
    rw [hne]
    exact ih fun e' he' => h e' (List.mem_cons_of_mem _ he')

/-! ## Supporting lemmas: evaluating the store operations -/

lemma str_ext {s t : String} (h : s.toList = t.toList) : s = t := by
  cases s with
  | mk a =>
    cases t with
    | mk b =>
      have hab : a = b := h
      rw [hab]

lemma find_matching_eq {pattern : String} {st : Store} {now : Int} {l : List String}
    (hfilter : (st.map (·.1)).filter (fun f =>
        globMatch (effectivePattern pattern).toList f.toList && !hiddenName f
          && !is_expired f now) = l)
    (hsorted : List.Pairwise (fun a b => strLe a b = true) l) :
    find_matching_tuples pattern st now = l := by
  simp only [find_matching_tuples]
  rw [hfilter]
  exact pySorted_eq_self hsorted

/-- The central consumption step: on a store decomposed into non-matching
entries `Z` followed by live matching entries `(f, d) :: R` in sorted order,
a non-blocking `inp` sweeps, discovers exactly the matching entries, locks
and consumes the first, and returns its payload. -/
lemma inpOnce_decomp {n f : String} {Z R : Store} {d : Payload} {now : Int}
    (hplain : ∀ c ∈ n.toList, c ≠ '*' ∧ c ≠ '?')
    (hZ : ∀ e ∈ Z, n.toList <+: e.1.toList →
        hiddenName e.1 = true ∨ is_expired e.1 now = true)
    (hcleanR : ∀ e ∈ (f, d) :: R,
        is_expired e.1 now = false ∧ e.1.toList.getLast? ≠ some 'k'
          ∧ hiddenName e.1 = false ∧ n.toList <+: e.1.toList)
    (hkeys : ∀ e ∈ R, e.1 ≠ f)
    (hsorted : List.Pairwise (fun a b => strLe a b = true) (((f, d) :: R).map (·.1))) :
    inpOnce n (Z ++ (f, d) :: R) noLocks now
      = .ok (d, cleanup_expired Z now ++ R) := by
  have hf := hcleanR (f, d) (by simp)
  have hZkeys : ∀ e ∈ cleanup_expired Z now, e.1 ≠ f := by
    intro e he heq
    rcases hZ e (cleanup_expired_subset e he) (by rw [heq]; exact hf.2.2.2) with hh | hx
    · rw [heq, hf.2.2.1] at hh; cases hh
    · rw [heq, hf.1] at hx; cases hx
  have hclean : cleanup_expired (Z ++ (f, d) :: R) now
      = cleanup_expired Z now ++ (f, d) :: R :=
    cleanup_append_clean fun e he => ⟨(hcleanR e he).1, (hcleanR e he).2.1⟩
  have hfilter : ((cleanup_expired Z now ++ (f, d) :: R).map (·.1)).filter
      (fun g => globMatch (effectivePattern n).toList g.toList && !hiddenName g
        && !is_expired g now) = ((f, d) :: R).map (·.1) := by
    rw [List.map_append, List.filter_append]
    have h1 : ((cleanup_expired Z now).map (·.1)).filter
        (fun g => globMatch (effectivePattern n).toList g.toList && !hiddenName g
          && !is_expired g now) = [] := by
      rw [List.filter_eq_nil_iff]
      intro g hg
      obtain ⟨e, he, rfl⟩ := List.mem_map.mp hg
      intro hcond
      rw [Bool.and_eq_true, Bool.and_eq_true, Bool.not_eq_true', Bool.not_eq_true'] at hcond
      obtain ⟨⟨hglob, hhid⟩, hexp⟩ := hcond
      have hpre : n.toList <+: e.1.toList := (glob_iff_leading hplain).mp hglob
      rcases hZ e (cleanup_expired_subset e he) hpre with hh | hx
      · rw [hhid] at hh; cases hh
      · rw [hexp] at hx; cases hx
    have h2 : (((f, d) :: R).map (·.1)).filter
        (fun g => globMatch (effectivePattern n).toList g.toList && !hiddenName g
          && !is_expired g now) = ((f, d) :: R).map (·.1) := by
      rw [List.filter_eq_self]
      intro g hg
      obtain ⟨e, he, rfl⟩ := List.mem_map.mp hg
      obtain ⟨hexp, _, hhid, hpre⟩ := hcleanR e he
      rw [Bool.and_eq_true, Bool.and_eq_true, Bool.not_eq_true', Bool.not_eq_true']
      exact ⟨⟨(glob_iff_leading hplain).mpr hpre, hhid⟩, hexp⟩
    rw [h1, h2, List.nil_append]
  have hmatch : find_matching_tuples n (cleanup_expired (Z ++ (f, d) :: R) now) now
      = f :: R.map (·.1) := by
    rw [hclean]
    exact find_matching_eq hfilter hsorted
  have hlookup : (cleanup_expired (Z ++ (f, d) :: R) now).lookup f = some d := by
    rw [hclean]
    exact lookup_middle hZkeys
  have hremove : removeFile (cleanup_expired (Z ++ (f, d) :: R) now) f
      = cleanup_expired Z now ++ R := by
    rw [hclean, removeFile_append hZkeys, removeFile_cons_self hkeys]
  have hpass : tryReadPass n true (cleanup_expired (Z ++ (f, d) :: R) now) noLocks now
      = (some (d, cleanup_expired Z now ++ R), true) := by
    rw [tryReadPass, hmatch]
    rw [if_pos rfl, consumeCandidates]
    rw [if_neg (by simp [noLocks])]
    rw [hlookup, hremove]
    rfl
  rw [inpOnce, try_read_tuple_atomic]
  show (match tryReadLoop n true (cleanup_expired (Z ++ (f, d) :: R) now) noLocks now 2 with
        | .ok r => Except.ok r
        | .error _ => Except.error PubErr.notFound)
      = .ok (d, cleanup_expired Z now ++ R)
  rw [tryReadLoop, hpass]

/-- `out` in seq mode with an uncontended counter lock, evaluated. -/
lemma out_seq_eq (n : String) (data : Payload) (now : Int) (tok : String)
    (st : Store) (seqs : Seqs) :
    out n data 0 (some "seq") now tok noLocks st seqs
      = .ok (writeFile (cleanup_expired st now)
          (outFilename n 0 (some "seq") (next_seq n seqs).1 tok now) data,
          (next_seq n seqs).2) := rfl

/-- `out` in rep mode, evaluated. -/
lemma out_rep_eq (n : String) (data : Payload) (ttl : Int) (httl : ¬ttl < 0)
    (now : Int) (tok : String) (lockBusy : String → Bool) (st : Store) (seqs : Seqs) :
    out n data ttl (some "rep") now tok lockBusy st seqs
      = .ok (writeFile (cleanup_expired st now)
          (outFilename n ttl (some "rep") "" tok now) data, seqs) := by
  rw [out, if_neg httl, if_neg (by simp), if_neg (by simp)]
  rfl

lemma outFilename_default_toList (n tok : String) (now : Int) :
    (outFilename n 0 none "" tok now).toList = n.toList ++ '-' :: tok.toList := by
  have h : outFilename n 0 none "" tok now = n ++ "" ++ ("-" ++ tok) ++ "" := rfl
  rw [h, toList_append, toList_append, toList_append, toList_append]
  simp

lemma outFilename_seq_toList (n sp tok : String) (now : Int) :
    (outFilename n 0 (some "seq") sp tok now).toList
      = n.toList ++ sp.toList ++ '-' :: tok.toList := by
  have h : outFilename n 0 (some "seq") sp tok now = n ++ sp ++ ("-" ++ tok) ++ "" := rfl
  rw [h, toList_append, toList_append, toList_append, toList_append]
  simp

lemma outFilename_rep_zero (n : String) (tok : String) (now : Int) :
    outFilename n 0 (some "rep") "" tok now = n := by
  apply str_ext
  have h : outFilename n 0 (some "rep") "" tok now = n ++ "" ++ "" ++ "" := rfl
  rw [h, toList_append, toList_append, toList_append]
  simp

lemma outFilename_rep_ttl_toList (n tok : String) {ttl now : Int}
    (h1 : 0 < ttl) (h2 : 0 < now + ttl) :
    (outFilename n ttl (some "rep") "" tok now).toList
      = n.toList ++ '.' :: (toString (now + ttl)).toList := by
  simp only [outFilename]
  rw [if_pos h1, if_pos h2, if_neg (by simp)]
  rw [toList_append, toList_append, toList_append, toList_append]
  simp

/-! ## Supporting lemmas: decoding the filenames `out` builds -/

lemma hex_letter_le {c : Char} (hhex : isHexDigitChar c = true)
    (h97 : 97 ≤ c.toNat) : c.toNat ≤ 122 := by
  rcases hex_toNat hhex with ⟨h1, h2⟩ | ⟨h1, h2⟩ <;> omega

lemma tok_letter_exists {tok : String}
    (hhex : ∀ c ∈ tok.toList, isHexDigitChar c = true) (hlet : tokHasLetter tok) :
    ∃ c ∈ tok.toList, 97 ≤ c.toNat ∧ c.toNat ≤ 122 := by
  obtain ⟨c, hc, h97⟩ := hlet
  exact ⟨c, hc, h97, hex_letter_le (hhex c hc) h97⟩

lemma tok_ne_nil {tok : String} (hlet : tokHasLetter tok) : tok.toList ≠ [] := by
  obtain ⟨c, hc, _⟩ := hlet
  exact List.ne_nil_of_mem hc

lemma parse_outFilename_seq {n tok spt : String} {sp : List Char} {now : Int}
    (hspt : spt.toList = '-' :: sp)
    (hsp : ∀ c ∈ sp, c.isDigit = true)
    (hhex : ∀ c ∈ tok.toList, isHexDigitChar c = true)
    (hlet : tokHasLetter tok) :
    parse_filename (outFilename n 0 (some "seq") spt tok now)
      = ⟨String.mk (n.toList.takeWhile (· ≠ '-')), 0,
          String.mk (n.toList ++ '-' :: (sp ++ '-' :: tok.toList))⟩ := by
  have heq : outFilename n 0 (some "seq") spt tok now
      = String.mk (n.toList ++ '-' :: (sp ++ '-' :: tok.toList)) := by
    apply str_ext
    rw [outFilename_seq_toList, hspt, toList_mk]
    simp
  rw [heq]
  refine parse_dash_tail n.toList (sp ++ '-' :: tok.toList) ?_ ?_
  · intro hm
    rcases List.mem_append.mp hm with h | h
    · exact isDigit_ne_dot (hsp _ h) rfl
    · rcases List.mem_cons.mp h with h2 | h2
      · exact absurd h2 (by decide)
      · exact hex_ne_dot (hhex _ h2) rfl
  · obtain ⟨c, hc, h97, h122⟩ := tok_letter_exists hhex hlet
    exact ⟨c, List.mem_append_right _ (List.mem_cons_of_mem _ hc), h97, h122⟩

lemma parse_outFilename_rep_ttl {n tok : String} {ttl now : Int}
    (h1 : 0 < ttl) (h2 : 0 < now + ttl) :
    parse_filename (outFilename n ttl (some "rep") "" tok now)
      = ⟨String.mk (n.toList.takeWhile (· ≠ '-')), now + ttl, String.mk n.toList⟩ := by
  have heq : outFilename n ttl (some "rep") "" tok now
      = String.mk (n.toList ++ '.' :: (toString (now + ttl)).toList) :=
    str_ext (by rw [outFilename_rep_ttl_toList n tok h1 h2]; rfl)
  rw [heq]
  exact parse_dot_expiry n.toList h2

lemma is_expired_of_future {f : String} {now : Int}
    (h : now < (parse_filename f).expiry) : is_expired f now = false := by
  rw [is_expired]
  have h2 : ¬((parse_filename f).expiry ≤ now) := by omega
  simp [h2]

lemma toString_pos_toList_ne_nil {e : Int} (he : 0 < e) : (toString e).toList ≠ [] := by
  cases e with
  | ofNat m => rw [toString_intOfNat]; exact natRepr_ne_nil m
  | negSucc m => exact absurd he (by exact of_decide_eq_false rfl)

lemma getLast_fname_default {n tok : String} {now : Int}
    (hhex : ∀ c ∈ tok.toList, isHexDigitChar c = true) (hne : tok.toList ≠ []) :
    (outFilename n 0 none "" tok now).toList.getLast? ≠ some 'k' := by
  rw [outFilename_default_toList]
  have h : n.toList ++ '-' :: tok.toList = (n.toList ++ ['-']) ++ tok.toList := by simp
  rw [h]
  exact getLast_of_append_hex hne hhex

lemma getLast_fname_seq {n spt tok : String} {now : Int}
    (hhex : ∀ c ∈ tok.toList, isHexDigitChar c = true) (hne : tok.toList ≠ []) :
    (outFilename n 0 (some "seq") spt tok now).toList.getLast? ≠ some 'k' := by
  rw [outFilename_seq_toList]
  have h : n.toList ++ spt.toList ++ '-' :: tok.toList
      = (n.toList ++ spt.toList ++ ['-']) ++ tok.toList := by simp
  rw [h]
  exact getLast_of_append_hex hne hhex

lemma getLast_fname_rep_ttl {n tok : String} {ttl now : Int}
    (h1 : 0 < ttl) (h2 : 0 < now + ttl) :
    (outFilename n ttl (some "rep") "" tok now).toList.getLast? ≠ some 'k' := by
  rw [outFilename_rep_ttl_toList n tok h1 h2]
  have h : n.toList ++ '.' :: (toString (now + ttl)).toList
      = (n.toList ++ ['.']) ++ (toString (now + ttl)).toList := by simp
  rw [h, List.getLast?_append_of_ne_nil _ (toString_pos_toList_ne_nil h2)]
  intro hk
  have hmem : 'k' ∈ (toString (now + ttl)).toList :=
    List.mem_of_mem_getLast? (Option.mem_def.mpr hk)
  exact absurd (toString_pos_isDigit h2 _ hmem) (by decide)

lemma hiddenName_of_cons {f : String} {c : Char} {rest : List Char}
    (hf : f.toList = c :: rest) (hc : c ≠ '.') : hiddenName f = false := by
  simp only [hiddenName, hf]
  simp [hc]

lemma hiddenName_head {n : String} {c : Char} {rest : List Char}
    (hn : n.toList = c :: rest) (h : hiddenName n = false) : c ≠ '.' := by
  simp only [hiddenName, hn] at h
  simpa using h

/-- A filename built by appending to `n` a suffix that does not start with a
dot is hidden only if `n` is. -/
lemma hiddenName_false_append {f n : String} {cs : List Char}
    (hf : f.toList = n.toList ++ cs)
    (hn : hiddenName n = false)
    (hhead : ∀ c, cs.head? = some c → c ≠ '.') : hiddenName f = false := by
  cases hns : n.toList with
  | nil =>
    rw [hns, List.nil_append] at hf
    cases hcs : cs with
    | nil =>
      rw [hcs] at hf
      have hf' : f.data = [] := hf
      simp [hiddenName, hf']
    | cons c rest =>
      rw [hcs] at hf
      exact hiddenName_of_cons hf (hhead c (by rw [hcs]; rfl))
  | cons c rest =>
    rw [hns, List.cons_append] at hf
    exact hiddenName_of_cons hf (hiddenName_head hns hn)

/-! ## Supporting lemmas: the sequence counter -/

lemma fmt08_eval {v : Nat} (hv : v < 100000000) :
    fmt08 (v : Int) = String.mk (fixedDigits 8 v) := by
  rw [fmt08, if_pos (Int.ofNat_nonneg v), if_pos (by exact_mod_cast hv),
    Int.toNat_natCast]

lemma fixedDigits8_ne_nil (v : Nat) : fixedDigits 8 v ≠ [] := by
  intro h
  have : (fixedDigits 8 v).length = 0 := by rw [h]; rfl
  rw [show (8 : Nat) = 7 + 1 from rfl, fixedDigits] at this
  simp at this

lemma pyInt_fixedDigits8 {v : Nat} (hv : v < 100000000) :
    pyInt (String.mk (fixedDigits 8 v)) = some (v : Int) := by
  have hval : digitsVal (fixedDigits 8 v) = v := by
    rw [digitsVal_fixedDigits]
    exact Nat.mod_eq_of_lt (by norm_num [hv])
  rw [pyInt_digits (fixedDigits8_ne_nil v) fixedDigits_isDigit, hval]

lemma next_seq_eval {n : String} {seqs : Seqs} {k : Nat}
    (hcur : (match seqs.lookup n with
              | some txt => (pyInt txt).getD 0
              | none => 0) = (k : Int))
    (hk : k + 1 < 100000000) :
    next_seq n seqs
      = ("-" ++ String.mk (fixedDigits 8 (k + 1)),
          (n, String.mk (fixedDigits 8 (k + 1))) :: seqs.filter (fun e => !(e.1 == n))) := by
  simp only [next_seq]
  rw [hcur]
  have hc : (k : Int) + 1 = ((k + 1 : Nat) : Int) := by push_cast; ring
  rw [hc, fmt08_eval hk]

/-! ## Supporting lemmas: the blocking wait loop -/

lemma waitLoop_ne_notFound (tryAt : Nat → Except Unit Payload) (timeout : Option ℚ) :
    ∀ fuel k, waitLoop tryAt timeout k fuel ≠ some WaitOutcome.notFound := by
  intro fuel
  induction fuel with
  | zero => intro k; rw [waitLoop]; simp
  | succ fuel ih =>
    intro k
    rw [waitLoop]
    cases htry : tryAt k with
    | ok d => simp
    | error e =>
      by_cases hc : timeoutHit timeout k = true
      · rw [if_pos hc]; simp
      · rw [if_neg hc]; exact ih (k + 1)

lemma wait_nonblocking_once {tryAt tryAt' : Nat → Except Unit Payload}
    (h : tryAt 0 = tryAt' 0) (fuel fuel' : Nat) :
    wait_for_tuple tryAt (some once) fuel = wait_for_tuple tryAt' (some once) fuel' := by
  rw [wait_for_tuple, wait_for_tuple, if_pos rfl, if_pos rfl, h]

lemma wait_nonblocking_notFound {tryAt : Nat → Except Unit Payload}
    (h : tryAt 0 = .error ()) (fuel : Nat) :
    wait_for_tuple tryAt (some once) fuel = some WaitOutcome.notFound := by
  rw [wait_for_tuple, if_pos rfl, h]

lemma pos_ne_once {t : ℚ} (ht : 0 < t) : (some t : Option ℚ) ≠ some once := by
  intro hc
  rw [Option.some.injEq] at hc
  rw [hc, once] at ht
  norm_num at ht

lemma waitLoop_timedOut {tryAt : Nat → Except Unit Payload} {t : ℚ}
    (htry : ∀ k, tryAt k = .error ()) (ht : 0 < t) :
    ∀ fuel k, ((⌈10 * t⌉).toNat - k) + 1 ≤ fuel →
      waitLoop tryAt (some t) k fuel = some WaitOutcome.timedOut := by
  intro fuel
  induction fuel with
  | zero => intro k h; omega
  | succ fuel ih =>
    intro k h
    rw [waitLoop, htry k]
    by_cases hk : (⌈10 * t⌉).toNat ≤ k
    · rw [if_pos]
      rw [timeoutHit, Bool.and_eq_true, decide_eq_true_eq, decide_eq_true_eq]
      refine ⟨ht, ?_⟩
      have h2 : (0 : ℤ) ≤ ⌈10 * t⌉ := Int.ceil_nonneg (by linarith)
      have hceil : 10 * t ≤ ((⌈10 * t⌉).toNat : ℚ) := by
        have h1 : (10 : ℚ) * t ≤ (⌈10 * t⌉ : ℚ) := Int.le_ceil _
        have h3 : ((((⌈10 * t⌉).toNat : ℕ)) : ℚ) = ((⌈10 * t⌉ : ℤ) : ℚ) := by
          exact_mod_cast congrArg (fun z : ℤ => (z : ℚ)) (Int.toNat_of_nonneg h2)
        rw [h3]
        exact h1
      have hkq : ((⌈10 * t⌉).toNat : ℚ) ≤ (k : ℚ) := by exact_mod_cast hk
      rw [pollInterval]
      linarith
    · rw [if_neg]
      · exact ih (k + 1) (by omega)
      · rw [timeoutHit, Bool.and_eq_true, decide_eq_true_eq, decide_eq_true_eq]
        rintro ⟨-, hle⟩
        push_neg at hk
        have hlt : (k : ℤ) < ⌈10 * t⌉ := by omega
        have hq : (k : ℚ) < 10 * t := by
          have := Int.lt_ceil.mp hlt
          exact_mod_cast this
        rw [pollInterval] at hle
        linarith

lemma wait_timeout_reaches {tryAt : Nat → Except Unit Payload} {t : ℚ}
    (htry : ∀ k, tryAt k = .error ()) (ht : 0 < t) :
    wait_for_tuple tryAt (some t) ((⌈10 * t⌉).toNat + 1) = some WaitOutcome.timedOut := by
  rw [wait_for_tuple, if_neg]
  · exact waitLoop_timedOut htry ht _ 0 (by omega)
  · exact pos_ne_once ht

lemma waitLoop_zero_eq_none (tryAt : Nat → Except Unit Payload) :
    ∀ fuel k, waitLoop tryAt (some 0) k fuel = waitLoop tryAt none k fuel := by
  intro fuel
  induction fuel with
  | zero => intro k; rfl
  | succ fuel ih =>
    intro k
    rw [waitLoop, waitLoop]
    cases htry : tryAt k with
    | ok d => rfl
    | error e =>
      have hc0 : timeoutHit (some 0) k = false := by
        rw [timeoutHit]
        norm_num
      have hcn : timeoutHit none k = false := rfl
      rw [hc0, hcn, if_neg (by simp), if_neg (by simp)]
      exact ih (k + 1)

lemma waitLoop_none_ne_timedOut (tryAt : Nat → Except Unit Payload) :
    ∀ fuel k, waitLoop tryAt none k fuel ≠ some WaitOutcome.timedOut := by
  intro fuel
  induction fuel with
  | zero => intro k; rw [waitLoop]; simp
  | succ fuel ih =>
    intro k
    rw [waitLoop]
    cases htry : tryAt k with
    | ok d => simp
    | error e =>
      rw [if_neg (by rw [show timeoutHit none k = false from rfl]; simp)]
      exact ih (k + 1)

/-! ## Supporting lemmas: odds and ends for the claims -/

lemma cleanup_expired_nil (now : Int) : cleanup_expired [] now = [] := rfl

/-- A store none of whose entries matches a key is unchanged by the
`writeFile` pre-filter. -/
lemma filter_keys_ne {xs : Store} {f : String} (h : ∀ e ∈ xs, e.1 ≠ f) :
    xs.filter (fun e => !(e.1 == f)) = xs := by
  rw [List.filter_eq_self]
  intro e he
  simp [h e he]

/-- Overwriting the one entry of a key replaces its payload in place. -/
lemma writeFile_replace {xs : Store} {f : String} {d d' : Payload}
    (h : ∀ e ∈ xs, e.1 ≠ f) : writeFile (xs ++ [(f, d)]) f d' = xs ++ [(f, d')] := by
  rw [writeFile, List.filter_append, filter_keys_ne h]
  simp

/-- A clean store is a fixed point of the sweeper. -/
lemma cleanup_clean_eq {ys : Store} {now : Int}
    (hys : ∀ e ∈ ys, is_expired e.1 now = false ∧ e.1.toList.getLast? ≠ some 'k') :
    cleanup_expired ys now = ys := by
  have h := @cleanup_append_clean [] ys now hys
  simpa using h

lemma rsplitDot_some_eq : ∀ {cs a b : List Char},
    rsplitDot cs = some (a, b) → cs = a ++ '.' :: b := by
  intro cs
  induction cs with
  | nil => intro a b h; cases h
  | cons c rest ih =>
    intro a b h
    rw [rsplitDot] at h
    cases hr : rsplitDot rest with
    | some p =>
      obtain ⟨pa, pb⟩ := p
      rw [hr] at h
      simp only [Option.some.injEq, Prod.mk.injEq] at h
      obtain ⟨h1, h2⟩ := h
      rw [← h1, ← h2, List.cons_append, ← ih hr]
    | none =>
      rw [hr] at h
      by_cases hc : c = '.'
      · rw [if_pos hc] at h
        simp only [Option.some.injEq, Prod.mk.injEq] at h
        obtain ⟨h1, h2⟩ := h
        rw [← h1, ← h2, List.nil_append, hc]
      · rw [if_neg hc] at h
        cases h

/-- The decoded name of an identifier is always a leading part of it. -/
lemma parse_name_leading (f : String) :
    (parse_filename f).name.toList <+: f.toList := by
  have hf : String.mk f.toList = f := str_ext rfl
  cases hr : rsplitDot f.toList with
  | none =>
    have h := parse_filename_of_rsplit_none hr
    rw [hf] at h
    rw [h, toList_mk]
    exact List.takeWhile_prefix _
  | some p =>
    obtain ⟨b, ext⟩ := p
    cases hp : pyInt (String.mk ext) with
    | none =>
      have h := parse_filename_of_pyInt_none hr hp
      rw [hf] at h
      rw [h, toList_mk]
      exact List.takeWhile_prefix _
    | some e =>
      have h := parse_filename_of_pyInt_some hr hp
      rw [hf] at h
      rw [h, toList_mk]
      have hb : b <+: f.toList := ⟨'.' :: ext, (rsplitDot_some_eq hr).symm⟩
      exact ( List.takeWhile_prefix _).trans hb

/-- An identifier whose decoded name is `n` begins with `n`; contrapositive
form for stores isolated from a name. -/
lemma name_ne_of_no_lead {n f : String} (h : ¬ n.toList <+: f.toList) :
    ((parse_filename f).name == n) = false := by
  rw [beq_eq_false_iff_ne]
  intro he
  exact h (he ▸ parse_name_leading f)

/-- Appending any suffix to a nonempty non-hidden name keeps the result
non-hidden. -/
lemma hiddenName_append_of_ne_nil {f n : String} {cs : List Char}
    (hf : f.toList = n.toList ++ cs) (hn : hiddenName n = false)
    (hne : n.toList ≠ []) : hiddenName f = false := by
  cases hns : n.toList with
  | nil => exact absurd hns hne
  | cons c rest =>
    rw [hns, List.cons_append] at hf
    exact hiddenName_of_cons hf (hiddenName_head hns hn)

lemma lex_ne {a b : String} (h : listLexLt a.toList b.toList = true) : a ≠ b := by
  intro he
  rw [he, listLexLt_irrefl] at h
  cases h

lemma is_expired_true {f : String} {now : Int}
    (h0 : (parse_filename f).expiry ≠ 0) (hle : (parse_filename f).expiry ≤ now) :
    is_expired f now = true := by
  rw [is_expired]
  simp [h0, hle]

lemma takeWhile_ne_dash_eq {l : List Char} (h : '-' ∉ l) :
    l.takeWhile (· ≠ '-') = l := by
  induction l with
  | nil => rfl
  | cons c cs ih =>
    have hc : c ≠ '-' := fun he => h (by rw [he]; exact List.mem_cons_self _ _)
    rw [List.takeWhile_cons, if_pos (by simpa using hc)]
    rw [ih fun hm => h (List.mem_cons_of_mem _ hm)]

/-- A delimiter-free name decodes to itself. -/
lemma parse_plain {n : String} (hdot : '.' ∉ n.toList) (hdash : '-' ∉ n.toList) :
    parse_filename n = ⟨n, 0, n⟩ := by
  have hf : String.mk n.toList = n := str_ext rfl
  have hr : rsplitDot n.toList = none := rsplitDot_eq_none_iff.mpr hdot
  have h := parse_filename_of_rsplit_none hr
  rw [hf] at h
  rw [h, takeWhile_ne_dash_eq hdash, hf]

/-- Lexicographic order of two seq-mode identifiers of the same name with
in-range sequence numbers `i < j`: the Python sort presents them in write
order. -/
lemma seqFile_lex (n tok tok' : String) (i j : Nat) (now now' : Int)
    (hij : i < j) (hj : j < 100000000) :
    listLexLt
      (outFilename n 0 (some "seq") ("-" ++ String.mk (fixedDigits 8 i)) tok now).toList
      (outFilename n 0 (some "seq") ("-" ++ String.mk (fixedDigits 8 j)) tok' now').toList
      = true := by
  rw [outFilename_seq_toList, outFilename_seq_toList]
  have h1 : ("-" ++ String.mk (fixedDigits 8 i)).toList = '-' :: fixedDigits 8 i := rfl
  have h2 : ("-" ++ String.mk (fixedDigits 8 j)).toList = '-' :: fixedDigits 8 j := rfl
  rw [h1, h2]
  have e1 : n.toList ++ ('-' :: fixedDigits 8 i) ++ '-' :: tok.toList
      = (n.toList ++ ['-']) ++ (fixedDigits 8 i ++ '-' :: tok.toList) := by
    simp
  have e2 : n.toList ++ ('-' :: fixedDigits 8 j) ++ '-' :: tok'.toList
      = (n.toList ++ ['-']) ++ (fixedDigits 8 j ++ '-' :: tok'.toList) := by
    simp
  rw [e1, e2, listLexLt_append_same]
  exact fixedDigits_lex _ _ hij (by norm_num [hj])

/-- An entry surviving a sweep is hidden or alive: the sweeper removed every
non-hidden expired filename. -/
lemma mem_cleanup_hidden_or_alive {st : Store} {now : Int} :
    ∀ e ∈ cleanup_expired st now,
      hiddenName e.1 = true ∨ is_expired e.1 now = false := by
  intro e he
  by_cases hh : hiddenName e.1 = true
  · exact Or.inl hh
  by_cases hx : is_expired e.1 now = false
  · exact Or.inr hx
  exfalso
  have hh' : hiddenName e.1 = false := by
    revert hh
    cases hiddenName e.1 <;> simp
  have hx' : is_expired e.1 now = true := by
    revert hx
    cases is_expired e.1 now <;> simp
  simp only [cleanup_expired, List.mem_filter] at he
  obtain ⟨hmem, hcond⟩ := he
  rw [Bool.not_eq_true', List.any_eq_false] at hcond
  have hd : e.1 ∈ (st.map (·.1)).filter (fun f => !hiddenName f && is_expired f now) :=
    mem_doomed_iff.mpr ⟨List.mem_map.mpr ⟨e, hmem, rfl⟩, hh', hx'⟩
  have := hcond e.1 hd
  simp at this

/-- Appending live entries to an already-swept store is a fixed point of the
sweeper: the first sweep left no non-hidden expired entry, so the second
sweep's doomed list is empty and nothing — lock-file lookalikes included —
is removed. -/
lemma cleanup_swept_append {Z ys : Store} {now : Int}
    (hZs : ∀ e ∈ Z, hiddenName e.1 = true ∨ is_expired e.1 now = false)
    (hys : ∀ e ∈ ys, is_expired e.1 now = false) :
    cleanup_expired (Z ++ ys) now = Z ++ ys := by
  have hdoomed : ((Z ++ ys).map (·.1)).filter
      (fun f => !hiddenName f && is_expired f now) = [] := by
    rw [List.filter_eq_nil_iff]
    intro g hg
    obtain ⟨e, he, rfl⟩ := List.mem_map.mp hg
    rcases List.mem_append.mp he with he | he
    · rcases hZs e he with hh | hx
      · simp [hh]
      · simp [hx]
    · simp [hys e he]
  simp only [cleanup_expired, hdoomed]
  rw [List.filter_eq_self]
  intro e he
  simp

/-- The sweeper is idempotent. -/
lemma cleanup_idem {st : Store} {now : Int} :
    cleanup_expired (cleanup_expired st now) now = cleanup_expired st now := by
  have h := @cleanup_swept_append (cleanup_expired st now) [] now
    mem_cleanup_hidden_or_alive (fun e he => absurd he (List.not_mem_nil e))
  simpa using h

/-- The consumption step of `inpOnce_decomp` on an already-swept prefix `Z`:
the renewed sweep leaves the store unchanged, so no lock-file side condition
on the entries is needed and `Z` survives as it stands. -/
lemma inpOnce_decomp_swept {n f : String} {Z R : Store} {d : Payload} {now : Int}
    (hplain : ∀ c ∈ n.toList, c ≠ '*' ∧ c ≠ '?')
    (hZs : ∀ e ∈ Z, hiddenName e.1 = true ∨ is_expired e.1 now = false)
    (hZ : ∀ e ∈ Z, n.toList <+: e.1.toList →
        hiddenName e.1 = true ∨ is_expired e.1 now = true)
    (hcleanR : ∀ e ∈ (f, d) :: R,
        is_expired e.1 now = false ∧ hiddenName e.1 = false ∧ n.toList <+: e.1.toList)
    (hkeys : ∀ e ∈ R, e.1 ≠ f)
    (hsorted : List.Pairwise (fun a b => strLe a b = true) (((f, d) :: R).map (·.1))) :
    inpOnce n (Z ++ (f, d) :: R) noLocks now = .ok (d, Z ++ R) := by
  have hf := hcleanR (f, d) (by simp)
  have hZkeys : ∀ e ∈ Z, e.1 ≠ f := by
    intro e he heq
    rcases hZ e he (by rw [heq]; exact hf.2.2) with hh | hx
    · rw [heq, hf.2.1] at hh; cases hh
    · rw [heq, hf.1] at hx; cases hx
  have hclean : cleanup_expired (Z ++ (f, d) :: R) now = Z ++ (f, d) :: R :=
    cleanup_swept_append hZs (fun e he => (hcleanR e he).1)
  have hfilter : ((Z ++ (f, d) :: R).map (·.1)).filter
      (fun g => globMatch (effectivePattern n).toList g.toList && !hiddenName g
        && !is_expired g now) = ((f, d) :: R).map (·.1) := by
    rw [List.map_append, List.filter_append]
    have h1 : (Z.map (·.1)).filter
        (fun g => globMatch (effectivePattern n).toList g.toList && !hiddenName g
          && !is_expired g now) = [] := by
      rw [List.filter_eq_nil_iff]
      intro g hg
      obtain ⟨e, he, rfl⟩ := List.mem_map.mp hg
      intro hcond
      rw [Bool.and_eq_true, Bool.and_eq_true, Bool.not_eq_true', Bool.not_eq_true'] at hcond
      obtain ⟨⟨hglob, hhid⟩, hexp⟩ := hcond
      have hpre : n.toList <+: e.1.toList := (glob_iff_leading hplain).mp hglob
      rcases hZ e he hpre with hh | hx
      · rw [hhid] at hh; cases hh
      · rw [hexp] at hx; cases hx
    have h2 : (((f, d) :: R).map (·.1)).filter
        (fun g => globMatch (effectivePattern n).toList g.toList && !hiddenName g
          && !is_expired g now) = ((f, d) :: R).map (·.1) := by
      rw [List.filter_eq_self]
      intro g hg
      obtain ⟨e, he, rfl⟩ := List.mem_map.mp hg
      obtain ⟨hexp, hhid, hpre⟩ := hcleanR e he
      rw [Bool.and_eq_true, Bool.and_eq_true, Bool.not_eq_true', Bool.not_eq_true']
      exact ⟨⟨(glob_iff_leading hplain).mpr hpre, hhid⟩, hexp⟩
    rw [h1, h2, List.nil_append]
  have hmatch : find_matching_tuples n (cleanup_expired (Z ++ (f, d) :: R) now) now
      = f :: R.map (·.1) := by
    rw [hclean]
    exact find_matching_eq hfilter hsorted
  have hlookup : (cleanup_expired (Z ++ (f, d) :: R) now).lookup f = some d := by
    rw [hclean]
    exact lookup_middle hZkeys
  have hremove : removeFile (cleanup_expired (Z ++ (f, d) :: R) now) f = Z ++ R := by
    rw [hclean, removeFile_append hZkeys, removeFile_cons_self hkeys]
  have hpass : tryReadPass n true (cleanup_expired (Z ++ (f, d) :: R) now) noLocks now
      = (some (d, Z ++ R), true) := by
    rw [tryReadPass, hmatch]
    rw [if_pos rfl, consumeCandidates]
    rw [if_neg (by simp [noLocks])]
    rw [hlookup, hremove]
    rfl
  rw [inpOnce, try_read_tuple_atomic]
  show (match tryReadLoop n true (cleanup_expired (Z ++ (f, d) :: R) now) noLocks now 2 with
        | .ok r => Except.ok r
        | .error _ => Except.error PubErr.notFound)
      = .ok (d, Z ++ R)
  rw [tryReadLoop, hpass]

/-! ## The claims -/

/-- Claim C4: an entry whose decoded expiry is nonzero and has passed
(`expiry ≤ now`) is never a discovery candidate of `rd`/`inp` and is never
counted by `ls`, even while it is still physically present in the directory:
the check is made logically, on the decoded identifier, at lookup time. -/
theorem expired_never_visible (f : String) (d : Payload) (st₁ st₂ : Store)
    (pattern : String) (now : Int)
    (h0 : (parse_filename f).expiry ≠ 0) (hle : (parse_filename f).expiry ≤ now) :
    f ∉ find_matching_tuples pattern (st₁ ++ (f, d) :: st₂) now
    ∧ lsCounts pattern (st₁ ++ (f, d) :: st₂) now = lsCounts pattern (st₁ ++ st₂) now := by
  have hexp : is_expired f now = true := is_expired_true h0 hle
  constructor
  · intro hmem
    have h := (mem_find_matching_tuples.mp hmem).2.2.2
    rw [hexp] at h
    cases h
  · simp only [lsCounts, List.map_append, List.map_cons, List.foldl_append,
      List.foldl_cons, hexp]
    simp

/-- The C4 theorem at the concrete expired entry `e.5` and `now = 10`. -/
theorem expired_never_visible_witness :
    "e.5" ∉ find_matching_tuples "e" ([] ++ ("e.5", [1]) :: []) 10
    ∧ lsCounts "e" ([] ++ ("e.5", [1]) :: []) 10 = lsCounts "e" ([] ++ []) 10 :=
  expired_never_visible "e.5" [1] [] [] "e" 10 (by decide) (by decide)

/-- Claim C5: with the `once` sentinel the discovery is attempted exactly once
and, when nothing is available, the call fails immediately with
`TupleNotFound` whatever the observation budget; with a positive timeout `t`
the loop polls on the fixed 0.1-second interval, reports `TimeoutError` by
the iteration at which the elapsed time reaches `t`, and never reports
`TupleNotFound`. -/
theorem wait_modes (tryAt : Nat → Except Unit Payload) (t : ℚ) (fuel : Nat)
    (ht : 0 < t) (hfail : ∀ k, tryAt k = .error ()) :
    wait_for_tuple tryAt (some once) fuel = some WaitOutcome.notFound
    ∧ wait_for_tuple tryAt (some t) ((⌈10 * t⌉).toNat + 1) = some WaitOutcome.timedOut
    ∧ wait_for_tuple tryAt (some t) fuel ≠ some WaitOutcome.notFound := by
  refine ⟨wait_nonblocking_notFound (hfail 0) fuel, wait_timeout_reaches hfail ht, ?_⟩
  rw [wait_for_tuple, if_neg (pos_ne_once ht)]
  exact waitLoop_ne_notFound tryAt (some t) fuel 0

/-- The C5 theorem at the always-empty discovery and timeout 1 second. -/
theorem wait_modes_witness :
    wait_for_tuple (fun _ => .error ()) (some once) 7 = some WaitOutcome.notFound
    ∧ wait_for_tuple (fun _ => .error ()) (some 1) ((⌈10 * (1 : ℚ)⌉).toNat + 1)
        = some WaitOutcome.timedOut
    ∧ wait_for_tuple (fun _ => .error ()) (some 1) 7 ≠ some WaitOutcome.notFound :=
  wait_modes (fun _ => .error ()) 1 7 (by norm_num) (fun _ => rfl)

/-- Claim C6 (corrected): discovery for `inp`, `rd` and `ls` is a *prefix*
search on identifiers, not an exact-name match on decoded names: for a
pattern free of the glob metacharacters `*`, `?`, `[` (on which `pathlib`
matching is literal), the candidates are exactly the non-hidden,
non-expired stored identifiers that begin with the pattern.  The spec's
glob example still holds: `ls "a*"` over `a1`, `a2`, `b1` reports exactly
`a1` and `a2`. -/
theorem discovery_prefix_glob (pattern f : String) (st : Store) (now : Int)
    (hplain : ∀ c ∈ pattern.toList, c ≠ '*' ∧ c ≠ '?' ∧ c ≠ '[') :
    (f ∈ find_matching_tuples pattern st now ↔
      f ∈ st.map (·.1) ∧ pattern.toList <+: f.toList
        ∧ hiddenName f = false ∧ is_expired f now = false)
    ∧ ls "a*" [("a1-aadd0001", [1]), ("a2-aadd0002", [2]), ("b1-aadd0003", [3])] 0
        = ["1 a1", "1 a2"] := by
  constructor
  · rw [mem_find_matching_tuples,
      glob_iff_leading (fun c hc => ⟨(hplain c hc).1, (hplain c hc).2.1⟩)]
  · rfl

/-- The C6 theorem at pattern `a` against the store holding only
`ab-deadbeef`: the entry of the different name `ab` is a candidate for the
exact name `a`, because `a` begins it. -/
theorem discovery_prefix_glob_witness :
    ("ab-deadbeef" ∈ find_matching_tuples "a" [("ab-deadbeef", [9])] 0 ↔
      "ab-deadbeef" ∈ [("ab-deadbeef", [9])].map (·.1)
        ∧ "a".toList <+: "ab-deadbeef".toList
        ∧ hiddenName "ab-deadbeef" = false ∧ is_expired "ab-deadbeef" 0 = false)
    ∧ ls "a*" [("a1-aadd0001", [1]), ("a2-aadd0002", [2]), ("b1-aadd0003", [3])] 0
        = ["1 a1", "1 a2"] :=
  discovery_prefix_glob "a" "ab-deadbeef" [("ab-deadbeef", [9])] 0 (by decide)

/-- Counterexample to C6 as stated: on a store holding only an entry of the
name `ab`, the non-blocking `rd` for the exact name `a` returns that entry's
payload, although its decoded name `ab` differs from `a`. -/
theorem discovery_crossname_cex :
    rdOnce "a" [("ab-deadbeef", [9])] noLocks 0 = .ok ([9], [("ab-deadbeef", [9])])
    ∧ (parse_filename "ab-deadbeef").name = "ab" := by
  exact ⟨rfl, by decide⟩

/-- Claim C7 (corrected): a `LockTimeout` raised while trying to lock a
candidate entry is converted into trying the next candidate and, at worst,
`TupleNotFound`: the read path (`inp`, `rd`) never surfaces it, under any
foreign lock environment, and neither does `out` outside seq mode (`ls` and
`clear` take no locks at all).  But `out` in seq mode propagates a
sequence-counter `LockTimeout` to its caller uncaught. -/
theorem locktimeout_internal (pattern n : String) (st : Store) (seqs : Seqs)
    (lockBusy : String → Bool) (now ttl : Int) (data : Payload) (tok : String)
    (mode : Option String) (hmode : mode ≠ some "seq") :
    inpOnce pattern st lockBusy now ≠ .error .lockTimeout
    ∧ rdOnce pattern st lockBusy now ≠ .error .lockTimeout
    ∧ out n data ttl mode now tok lockBusy st seqs ≠ .error .lockTimeout := by
  refine ⟨?_, ?_, ?_⟩
  · rw [inpOnce]
    cases htr : try_read_tuple_atomic pattern true (cleanup_expired st now) lockBusy now with
    | ok r => simp
    | error e => simp
  · rw [rdOnce]
    cases htr : try_read_tuple_atomic pattern false (cleanup_expired st now) lockBusy now with
    | ok r => simp
    | error e => simp
  · rw [out]
    by_cases h1 : ttl < 0
    · rw [if_pos h1]
      simp
    · rw [if_neg h1]
      by_cases h2 : ¬(mode = none ∨ mode = some "seq" ∨ mode = some "rep")
      · rw [if_pos h2]
        simp
      · rw [if_neg h2, if_neg (by rintro ⟨hm, -⟩; exact hmode hm)]
        simp

/-- The C7 theorem at concrete read and default-mode write calls under a
busy foreign lock on every file. -/
theorem locktimeout_internal_witness :
    inpOnce "p" [("p-deadbeef", [1])] (busyOn "p-deadbeef.lock") 0
        ≠ .error .lockTimeout
    ∧ rdOnce "p" [("p-deadbeef", [1])] (busyOn "p-deadbeef.lock") 0
        ≠ .error .lockTimeout
    ∧ out "p" [2] 0 none 0 "cafebabe" (busyOn "p-deadbeef.lock")
        [("p-deadbeef", [1])] [] ≠ .error .lockTimeout :=
  locktimeout_internal "p" "p" [("p-deadbeef", [1])] [] (busyOn "p-deadbeef.lock")
    0 0 [2] "cafebabe" none (by decide)

/-- Counterexample to C7 as stated: while a foreign process holds the
sequence-counter lock `.q.seq.lock`, the public `out` in seq mode raises
`LockTimeout` to its caller instead of converting it. -/
theorem locktimeout_out_seq_cex :
    out "q" [1] 0 (some "seq") 0 "deadbeef" (busyOn (seqLockName "q")) [] []
      = .error .lockTimeout := by
  rfl

/-- Claim C8 (corrected): decoding is total and lenient, so an identifier
that violates the spec's grammar is *not* treated as expired or invalid:
a non-hidden entry with zero parsed expiry is kept by the sweeper and
returned by the matcher whether or not the grammar accepts it.  (Decoding
never raises out of enumeration: `parse_filename` is a total function.)
The identifier is restricted to ASCII free of glob metacharacters, the
domain on which this embedding of `int` and of `pathlib` matching is
exact; `hgram` and `hascii` only delimit that admitted domain. -/
theorem invalid_id_kept (f : String) (d : Payload) (now : Int)
    (hhid : hiddenName f = false) (hexp : is_expired f now = false)
    (hplain : ∀ c ∈ f.toList, c ≠ '*' ∧ c ≠ '?' ∧ c ≠ '[')
    (hascii : ∀ c ∈ f.toList, c.toNat ≤ 127)
    (hgram : grammarOK f = false) :
    cleanup_expired [(f, d)] now = [(f, d)]
    ∧ find_matching_tuples f [(f, d)] now = [f] := by
  constructor
  · rw [cleanup_expired]
    simp [hexp]
  · rw [find_matching_tuples]
    have hglob : globMatch (effectivePattern f).toList f.toList = true :=
      (glob_iff_leading (fun c hc => ⟨(hplain c hc).1, (hplain c hc).2.1⟩)).mpr
        (List.prefix_refl _)
    simp only [List.map_cons, List.map_nil, List.filter_cons, List.filter_nil,
      hglob, hhid, hexp, Bool.not_false, Bool.and_self, Bool.and_true, if_pos]
    rfl

/-- The C8 theorem at the grammar-violating identifier `a-b!c` (its token
block holds `!`, which is not alphanumeric). -/
theorem invalid_id_kept_witness :
    cleanup_expired [("a-b!c", [9])] 0 = [("a-b!c", [9])]
    ∧ find_matching_tuples "a-b!c" [("a-b!c", [9])] 0 = ["a-b!c"] :=
  invalid_id_kept "a-b!c" [9] 0 (by decide) (by decide) (by decide) (by decide)
    (by decide)

/-- Counterexample to C8 as stated: `a-b!c` does not parse per the grammar,
yet it is matched by discovery, kept by the sweeper, and returned by a
non-blocking `inp` — not skipped and not removed. -/
theorem grammar_skip_cex :
    grammarOK "a-b!c" = false
    ∧ find_matching_tuples "a" [("a-b!c", [1])] 0 = ["a-b!c"]
    ∧ cleanup_expired [("a-b!c", [1])] 0 = [("a-b!c", [1])]
    ∧ inpOnce "a" [("a-b!c", [1])] noLocks 0 = .ok ([1], []) := by
  refine ⟨by decide, by decide, by decide, rfl⟩

/-- Claim C9: `timeout = 0` behaves exactly like `timeout = None`: the wait
loop makes the same observations and never reports `TimeoutError`, because
the elapsed-time check is guarded by `timeout > 0`. -/
theorem timeout_zero_blocks (tryAt : Nat → Except Unit Payload) (fuel : Nat) :
    wait_for_tuple tryAt (some 0) fuel = wait_for_tuple tryAt none fuel
    ∧ wait_for_tuple tryAt (some 0) fuel ≠ some WaitOutcome.timedOut := by
  have h0 : (some (0 : ℚ) : Option ℚ) ≠ some once := by
    intro hc
    rw [Option.some.injEq, once] at hc
    norm_num at hc
  constructor
  · rw [wait_for_tuple, wait_for_tuple, if_neg h0, if_neg (by simp)]
    exact waitLoop_zero_eq_none tryAt fuel 0
  · rw [wait_for_tuple, if_neg h0, waitLoop_zero_eq_none tryAt fuel 0]
    exact waitLoop_none_ne_timedOut tryAt fuel 0

/-- Claim C3 (corrected): for a nonempty name free of the delimiters `-`
and `.` and of the glob metacharacters `*`, `?`, `[`, two replace-mode
writes of the name leave exactly one live entry and `inp` returns the
second payload *when they carry the same expiry time* — here, the
same TTL written at the same instant.  TTL is part of the written
identifier, so writes with different expiries land in different files
(see the counterexample); a `.` in the name would make a TTL-free
replace-mode file decode a bogus expiry. -/
theorem replace_single_live (n tok1 tok2 : String) (P1 P2 : Payload)
    (st : Store) (seqs : Seqs) (ttl now : Int)
    (hplain : ∀ c ∈ n.toList, c ≠ '*' ∧ c ≠ '?' ∧ c ≠ '[')
    (hdot : '.' ∉ n.toList) (hdash : '-' ∉ n.toList) (hne : n.toList ≠ [])
    (httl : 0 ≤ ttl) (hnow : 0 < now)
    (hfresh : ∀ e ∈ st, ¬ n.toList <+: e.1.toList) :
    out n P1 ttl (some "rep") now tok1 noLocks st seqs
      = .ok (cleanup_expired st now
          ++ [(outFilename n ttl (some "rep") "" tok1 now, P1)], seqs)
    ∧ out n P2 ttl (some "rep") now tok2 noLocks
        (cleanup_expired st now
          ++ [(outFilename n ttl (some "rep") "" tok1 now, P1)]) seqs
      = .ok (cleanup_expired st now
          ++ [(outFilename n ttl (some "rep") "" tok1 now, P2)], seqs)
    ∧ liveEntriesFor n (cleanup_expired st now
          ++ [(outFilename n ttl (some "rep") "" tok1 now, P2)]) now
        = [outFilename n ttl (some "rep") "" tok1 now]
    ∧ inpOnce n (cleanup_expired st now
          ++ [(outFilename n ttl (some "rep") "" tok1 now, P2)]) noLocks now
      = .ok (P2, cleanup_expired st now) := by
  have hplain' : ∀ c ∈ n.toList, c ≠ '*' ∧ c ≠ '?' :=
    fun c hc => ⟨(hplain c hc).1, (hplain c hc).2.1⟩
  have hhid : hiddenName n = false := by
    cases hn : n.toList with
    | nil => exact absurd hn hne
    | cons c r =>
      refine hiddenName_of_cons hn ?_
      intro hc
      rw [hc] at hn
      exact hdot (hn ▸ List.mem_cons_self _ _)
  have houtTok : outFilename n ttl (some "rep") "" tok2 now
      = outFilename n ttl (some "rep") "" tok1 now := rfl
  have hfacts : n.toList <+: (outFilename n ttl (some "rep") "" tok1 now).toList
      ∧ (parse_filename (outFilename n ttl (some "rep") "" tok1 now)).name = n
      ∧ is_expired (outFilename n ttl (some "rep") "" tok1 now) now = false
      ∧ hiddenName (outFilename n ttl (some "rep") "" tok1 now) = false := by
    rcases eq_or_lt_of_le httl with h0 | h0
    · have hz : outFilename n ttl (some "rep") "" tok1 now = n := by
        rw [← h0]
        exact outFilename_rep_zero n tok1 now
      rw [hz]
      refine ⟨List.prefix_refl _, ?_, ?_, hhid⟩
      · rw [parse_plain hdot hdash]
      · exact is_expired_of_expiry_zero (by rw [parse_plain hdot hdash])
    · have h2 : 0 < now + ttl := by omega
      have hlist := outFilename_rep_ttl_toList n tok1 h0 h2
      have hparse := @parse_outFilename_rep_ttl n tok1 ttl now h0 h2
      refine ⟨?_, ?_, ?_, ?_⟩
      · rw [hlist]
        exact List.prefix_append _ _
      · rw [hparse, takeWhile_ne_dash_eq hdash]
        exact str_ext rfl
      · refine is_expired_of_future ?_
        rw [hparse]
        show now < now + ttl
        omega
      · exact hiddenName_append_of_ne_nil hlist hhid hne
  obtain ⟨hfpre, hfname, hfexp, hfhid⟩ := hfacts
  have hZkey : ∀ e ∈ cleanup_expired st now,
      e.1 ≠ outFilename n ttl (some "rep") "" tok1 now := by
    intro e he heq
    exact hfresh e (cleanup_expired_subset e he) (heq ▸ hfpre)
  refine ⟨?_, ?_, ?_, ?_⟩
  · have h1 := out_rep_eq n P1 ttl (by omega) now tok1 noLocks st seqs
    rw [writeFile_fresh hZkey] at h1
    exact h1
  · have h2 := out_rep_eq n P2 ttl (by omega) now tok2 noLocks
      (cleanup_expired st now ++ [(outFilename n ttl (some "rep") "" tok1 now, P1)]) seqs
    rw [houtTok, cleanup_swept_append mem_cleanup_hidden_or_alive (by
        intro e he
        rcases List.mem_singleton.mp he with rfl
        exact hfexp),
      writeFile_replace hZkey] at h2
    exact h2
  · rw [liveEntriesFor, List.map_append, List.filter_append]
    have hZnil : ((cleanup_expired st now).map (·.1)).filter
        (fun f => !hiddenName f && !is_expired f now
          && ((parse_filename f).name == n)) = [] := by
      rw [List.filter_eq_nil_iff]
      intro g hg
      obtain ⟨e, he, rfl⟩ := List.mem_map.mp hg
      have hne' := name_ne_of_no_lead (hfresh e (cleanup_expired_subset e he))
      intro hcond
      rw [Bool.and_eq_true] at hcond
      rw [hne'] at hcond
      exact Bool.false_ne_true hcond.2
    rw [hZnil, List.nil_append, List.map_cons, List.map_nil, List.filter_cons]
    rw [if_pos (by rw [hfhid, hfexp, hfname]; simp)]
    rfl
  · have h4 := inpOnce_decomp_swept hplain'
      (Z := cleanup_expired st now) (R := []) (d := P2)
      mem_cleanup_hidden_or_alive
      (fun e he hp => absurd hp (hfresh e (cleanup_expired_subset e he)))
      (by
        intro e he
        rcases List.mem_singleton.mp he with rfl
        exact ⟨hfexp, hfhid, hfpre⟩)
      (fun e he => absurd he (List.not_mem_nil e))
      (by simp)
    rw [List.append_nil] at h4
    exact h4

/-- The C3 theorem at name `r`, TTL 5, both writes at `now = 10`. -/
theorem replace_single_live_witness :
    out "r" [4] 5 (some "rep") 10 "deadbeef" noLocks [] []
      = .ok (cleanup_expired [] 10
          ++ [(outFilename "r" 5 (some "rep") "" "deadbeef" 10, [4])], [])
    ∧ out "r" [5] 5 (some "rep") 10 "beefdead" noLocks
        (cleanup_expired [] 10
          ++ [(outFilename "r" 5 (some "rep") "" "deadbeef" 10, [4])]) []
      = .ok (cleanup_expired [] 10
          ++ [(outFilename "r" 5 (some "rep") "" "deadbeef" 10, [5])], [])
    ∧ liveEntriesFor "r" (cleanup_expired [] 10
          ++ [(outFilename "r" 5 (some "rep") "" "deadbeef" 10, [5])]) 10
        = [outFilename "r" 5 (some "rep") "" "deadbeef" 10]
    ∧ inpOnce "r" (cleanup_expired [] 10
          ++ [(outFilename "r" 5 (some "rep") "" "deadbeef" 10, [5])]) noLocks 10
      = .ok ([5], cleanup_expired [] 10) :=
  replace_single_live "r" "deadbeef" "beefdead" [4] [5] [] [] 5 10 (by decide)
    (by decide) (by decide) (by decide) (by norm_num) (by norm_num) (by simp)

/-- Counterexample to C3 as stated: replace-mode writes of the same name `r`
with TTLs 100 and 200 at `now = 1000` land in the two files `r.1100` and
`r.1200`; both are live, and `inp` returns the *first* payload. -/
theorem replace_ttl_two_live_cex :
    out "r" [0] 100 (some "rep") 1000 "deadbeef" noLocks [] []
      = .ok ([("r.1100", [0])], [])
    ∧ out "r" [1] 200 (some "rep") 1000 "deadbeef" noLocks [("r.1100", [0])] []
      = .ok ([("r.1100", [0]), ("r.1200", [1])], [])
    ∧ liveEntriesFor "r" [("r.1100", [0]), ("r.1200", [1])] 1000
      = ["r.1100", "r.1200"]
    ∧ inpOnce "r" [("r.1100", [0]), ("r.1200", [1])] noLocks 1000
      = .ok ([0], [("r.1200", [1])]) := by
  refine ⟨rfl, rfl, by decide, rfl⟩

/-- Claim C2 (corrected): for a non-hidden name (one not beginning with
`.`) free of the glob metacharacters `*`, `?`, `[` (on which `pathlib`
matching is literal), three seq-mode writes starting from a fresh space
take sequence numbers 1, 2, 3, and three subsequent non-blocking `inp`
calls return the payloads in exactly the write order. -/
theorem fifo_order (n tok1 tok2 tok3 : String) (P1 P2 P3 : Payload) (now : Int)
    (hplain : ∀ c ∈ n.toList, c ≠ '*' ∧ c ≠ '?' ∧ c ≠ '[')
    (hhid : hiddenName n = false)
    (hhex1 : ∀ c ∈ tok1.toList, isHexDigitChar c = true) (hlet1 : tokHasLetter tok1)
    (hhex2 : ∀ c ∈ tok2.toList, isHexDigitChar c = true) (hlet2 : tokHasLetter tok2)
    (hhex3 : ∀ c ∈ tok3.toList, isHexDigitChar c = true) (hlet3 : tokHasLetter tok3) :
    out n P1 0 (some "seq") now tok1 noLocks [] []
      = .ok ([(outFilename n 0 (some "seq") ("-" ++ String.mk (fixedDigits 8 1)) tok1 now, P1)],
          [(n, String.mk (fixedDigits 8 1))])
    ∧ out n P2 0 (some "seq") now tok2 noLocks
        [(outFilename n 0 (some "seq") ("-" ++ String.mk (fixedDigits 8 1)) tok1 now, P1)]
        [(n, String.mk (fixedDigits 8 1))]
      = .ok ([(outFilename n 0 (some "seq") ("-" ++ String.mk (fixedDigits 8 1)) tok1 now, P1),
          (outFilename n 0 (some "seq") ("-" ++ String.mk (fixedDigits 8 2)) tok2 now, P2)],
          [(n, String.mk (fixedDigits 8 2))])
    ∧ out n P3 0 (some "seq") now tok3 noLocks
        [(outFilename n 0 (some "seq") ("-" ++ String.mk (fixedDigits 8 1)) tok1 now, P1),
          (outFilename n 0 (some "seq") ("-" ++ String.mk (fixedDigits 8 2)) tok2 now, P2)]
        [(n, String.mk (fixedDigits 8 2))]
      = .ok ([(outFilename n 0 (some "seq") ("-" ++ String.mk (fixedDigits 8 1)) tok1 now, P1),
          (outFilename n 0 (some "seq") ("-" ++ String.mk (fixedDigits 8 2)) tok2 now, P2),
          (outFilename n 0 (some "seq") ("-" ++ String.mk (fixedDigits 8 3)) tok3 now, P3)],
          [(n, String.mk (fixedDigits 8 3))])
    ∧ inpOnce n
        [(outFilename n 0 (some "seq") ("-" ++ String.mk (fixedDigits 8 1)) tok1 now, P1),
          (outFilename n 0 (some "seq") ("-" ++ String.mk (fixedDigits 8 2)) tok2 now, P2),
          (outFilename n 0 (some "seq") ("-" ++ String.mk (fixedDigits 8 3)) tok3 now, P3)]
        noLocks now
      = .ok (P1,
          [(outFilename n 0 (some "seq") ("-" ++ String.mk (fixedDigits 8 2)) tok2 now, P2),
            (outFilename n 0 (some "seq") ("-" ++ String.mk (fixedDigits 8 3)) tok3 now, P3)])
    ∧ inpOnce n
        [(outFilename n 0 (some "seq") ("-" ++ String.mk (fixedDigits 8 2)) tok2 now, P2),
          (outFilename n 0 (some "seq") ("-" ++ String.mk (fixedDigits 8 3)) tok3 now, P3)]
        noLocks now
      = .ok (P2,
          [(outFilename n 0 (some "seq") ("-" ++ String.mk (fixedDigits 8 3)) tok3 now, P3)])
    ∧ inpOnce n
        [(outFilename n 0 (some "seq") ("-" ++ String.mk (fixedDigits 8 3)) tok3 now, P3)]
        noLocks now
      = .ok (P3, []) := by
  have key : ∀ (tok : String) (i : Nat),
      (∀ c ∈ tok.toList, isHexDigitChar c = true) → tokHasLetter tok →
      is_expired (outFilename n 0 (some "seq")
          ("-" ++ String.mk (fixedDigits 8 i)) tok now) now = false
      ∧ (outFilename n 0 (some "seq")
          ("-" ++ String.mk (fixedDigits 8 i)) tok now).toList.getLast? ≠ some 'k'
      ∧ hiddenName (outFilename n 0 (some "seq")
          ("-" ++ String.mk (fixedDigits 8 i)) tok now) = false
      ∧ n.toList <+: (outFilename n 0 (some "seq")
          ("-" ++ String.mk (fixedDigits 8 i)) tok now).toList := by
    intro tok i hhex hlet
    have hspt : ("-" ++ String.mk (fixedDigits 8 i)).toList
        = '-' :: fixedDigits 8 i := rfl
    have hparse := @parse_outFilename_seq n tok
      ("-" ++ String.mk (fixedDigits 8 i)) (fixedDigits 8 i) now
      hspt fixedDigits_isDigit hhex hlet
    have hlist : (outFilename n 0 (some "seq")
          ("-" ++ String.mk (fixedDigits 8 i)) tok now).toList
        = n.toList ++ (('-' :: fixedDigits 8 i) ++ '-' :: tok.toList) := by
      rw [outFilename_seq_toList, hspt]
      simp
    refine ⟨is_expired_of_expiry_zero (by rw [hparse]),
      getLast_fname_seq hhex (tok_ne_nil hlet), ?_, ?_⟩
    · refine hiddenName_false_append hlist hhid ?_
      intro c hc
      cases hc
      decide
    · rw [hlist]
      exact List.prefix_append _ _
  have k1 := key tok1 1 hhex1 hlet1
  have k2 := key tok2 2 hhex2 hlet2
  have k3 := key tok3 3 hhex3 hlet3
  have lex12 := seqFile_lex n tok1 tok2 1 2 now now (by norm_num) (by norm_num)
  have lex13 := seqFile_lex n tok1 tok3 1 3 now now (by norm_num) (by norm_num)
  have lex23 := seqFile_lex n tok2 tok3 2 3 now now (by norm_num) (by norm_num)
  have hseq1 : next_seq n []
      = ("-" ++ String.mk (fixedDigits 8 1), [(n, String.mk (fixedDigits 8 1))]) := by
    have h := @next_seq_eval n [] 0 rfl (by norm_num)
    simpa using h
  have hseq2 : next_seq n [(n, String.mk (fixedDigits 8 1))]
      = ("-" ++ String.mk (fixedDigits 8 2), [(n, String.mk (fixedDigits 8 2))]) := by
    have hcur : (match List.lookup n [(n, String.mk (fixedDigits 8 1))] with
        | some txt => (pyInt txt).getD 0
        | none => 0) = ((1 : Nat) : Int) := by
      have hl : List.lookup n [(n, String.mk (fixedDigits 8 1))]
          = some (String.mk (fixedDigits 8 1)) := by
        simp [List.lookup]
      rw [hl]
      show (pyInt (String.mk (fixedDigits 8 1))).getD 0 = ((1 : Nat) : Int)
      rw [pyInt_fixedDigits8 (by norm_num)]
      rfl
    have h := @next_seq_eval n [(n, String.mk (fixedDigits 8 1))] 1 hcur (by norm_num)
    simpa using h
  have hseq3 : next_seq n [(n, String.mk (fixedDigits 8 2))]
      = ("-" ++ String.mk (fixedDigits 8 3), [(n, String.mk (fixedDigits 8 3))]) := by
    have hcur : (match List.lookup n [(n, String.mk (fixedDigits 8 2))] with
        | some txt => (pyInt txt).getD 0
        | none => 0) = ((2 : Nat) : Int) := by
      have hl : List.lookup n [(n, String.mk (fixedDigits 8 2))]
          = some (String.mk (fixedDigits 8 2)) := by
        simp [List.lookup]
      rw [hl]
      show (pyInt (String.mk (fixedDigits 8 2))).getD 0 = ((2 : Nat) : Int)
      rw [pyInt_fixedDigits8 (by norm_num)]
      rfl
    have h := @next_seq_eval n [(n, String.mk (fixedDigits 8 2))] 2 hcur (by norm_num)
    simpa using h
  refine ⟨?_, ?_, ?_, ?_, ?_, ?_⟩
  · have h := out_seq_eq n P1 now tok1 [] []
    rw [hseq1] at h
    exact h
  · have h := out_seq_eq n P2 now tok2
      [(outFilename n 0 (some "seq") ("-" ++ String.mk (fixedDigits 8 1)) tok1 now, P1)]
      [(n, String.mk (fixedDigits 8 1))]
    rw [hseq2, cleanup_clean_eq (by
        intro e he
        rcases List.mem_singleton.mp he with rfl
        exact ⟨k1.1, k1.2.1⟩),
      writeFile_fresh (by
        intro e he
        rcases List.mem_singleton.mp he with rfl
        exact lex_ne lex12)] at h
    exact h
  · have h := out_seq_eq n P3 now tok3
      [(outFilename n 0 (some "seq") ("-" ++ String.mk (fixedDigits 8 1)) tok1 now, P1),
        (outFilename n 0 (some "seq") ("-" ++ String.mk (fixedDigits 8 2)) tok2 now, P2)]
      [(n, String.mk (fixedDigits 8 2))]
    rw [hseq3, cleanup_clean_eq (by
        intro e he
        rcases List.mem_cons.mp he with rfl | he
        · exact ⟨k1.1, k1.2.1⟩
        · rcases List.mem_singleton.mp he with rfl
          exact ⟨k2.1, k2.2.1⟩),
      writeFile_fresh (by
        intro e he
        rcases List.mem_cons.mp he with rfl | he
        · exact lex_ne lex13
        · rcases List.mem_singleton.mp he with rfl
          exact lex_ne lex23)] at h
    exact h
  · have h := inpOnce_decomp (fun c hc => ⟨(hplain c hc).1, (hplain c hc).2.1⟩) (Z := [])
      (f := outFilename n 0 (some "seq") ("-" ++ String.mk (fixedDigits 8 1)) tok1 now)
      (R := [(outFilename n 0 (some "seq") ("-" ++ String.mk (fixedDigits 8 2)) tok2 now, P2),
        (outFilename n 0 (some "seq") ("-" ++ String.mk (fixedDigits 8 3)) tok3 now, P3)])
      (d := P1)
      (fun e he => absurd he (List.not_mem_nil e))
      (by
        intro e he
        rcases List.mem_cons.mp he with rfl | he
        · exact k1
        · rcases List.mem_cons.mp he with rfl | he
          · exact k2
          · rcases List.mem_singleton.mp he with rfl
            exact k3)
      (by
        intro e he
        rcases List.mem_cons.mp he with rfl | he
        · exact Ne.symm (lex_ne lex12)
        · rcases List.mem_singleton.mp he with rfl
          exact Ne.symm (lex_ne lex13))
      (by
        simp only [List.map_cons, List.map_nil]
        refine List.Pairwise.cons ?_ (List.Pairwise.cons ?_ ?_)
        · intro b hb
          rcases List.mem_cons.mp hb with rfl | hb
          · exact strLe_of_lex lex12
          · rcases List.mem_singleton.mp hb with rfl
            exact strLe_of_lex lex13
        · intro b hb
          rcases List.mem_singleton.mp hb with rfl
          exact strLe_of_lex lex23
        · exact List.Pairwise.cons (by intro b hb; cases hb) List.Pairwise.nil)
    simpa [cleanup_expired_nil] using h
  · have h := inpOnce_decomp (fun c hc => ⟨(hplain c hc).1, (hplain c hc).2.1⟩) (Z := [])
      (f := outFilename n 0 (some "seq") ("-" ++ String.mk (fixedDigits 8 2)) tok2 now)
      (R := [(outFilename n 0 (some "seq") ("-" ++ String.mk (fixedDigits 8 3)) tok3 now, P3)])
      (d := P2)
      (fun e he => absurd he (List.not_mem_nil e))
      (by
        intro e he
        rcases List.mem_cons.mp he with rfl | he
        · exact k2
        · rcases List.mem_singleton.mp he with rfl
          exact k3)
      (by
        intro e he
        rcases List.mem_singleton.mp he with rfl
        exact Ne.symm (lex_ne lex23))
      (by
        simp only [List.map_cons, List.map_nil]
        refine List.Pairwise.cons ?_ ?_
        · intro b hb
          rcases List.mem_singleton.mp hb with rfl
          exact strLe_of_lex lex23
        · exact List.Pairwise.cons (by intro b hb; cases hb) List.Pairwise.nil)
    simpa [cleanup_expired_nil] using h
  · have h := inpOnce_decomp (fun c hc => ⟨(hplain c hc).1, (hplain c hc).2.1⟩) (Z := [])
      (f := outFilename n 0 (some "seq") ("-" ++ String.mk (fixedDigits 8 3)) tok3 now)
      (R := []) (d := P3)
      (fun e he => absurd he (List.not_mem_nil e))
      (by
        intro e he
        rcases List.mem_singleton.mp he with rfl
        exact k3)
      (fun e he => absurd he (List.not_mem_nil e))
      (by simp)
    simpa [cleanup_expired_nil] using h

/-- The C2 theorem at name `q`, payloads `[1]`, `[2]`, `[3]`, starting from
the empty space at `now = 0`. -/
theorem fifo_order_witness :
    out "q" [1] 0 (some "seq") 0 "aaaaaaaa" noLocks [] []
      = .ok ([(outFilename "q" 0 (some "seq") ("-" ++ String.mk (fixedDigits 8 1)) "aaaaaaaa" 0, [1])],
          [("q", String.mk (fixedDigits 8 1))])
    ∧ out "q" [2] 0 (some "seq") 0 "bbbbbbbb" noLocks
        [(outFilename "q" 0 (some "seq") ("-" ++ String.mk (fixedDigits 8 1)) "aaaaaaaa" 0, [1])]
        [("q", String.mk (fixedDigits 8 1))]
      = .ok ([(outFilename "q" 0 (some "seq") ("-" ++ String.mk (fixedDigits 8 1)) "aaaaaaaa" 0, [1]),
          (outFilename "q" 0 (some "seq") ("-" ++ String.mk (fixedDigits 8 2)) "bbbbbbbb" 0, [2])],
          [("q", String.mk (fixedDigits 8 2))])
    ∧ out "q" [3] 0 (some "seq") 0 "cccccccc" noLocks
        [(outFilename "q" 0 (some "seq") ("-" ++ String.mk (fixedDigits 8 1)) "aaaaaaaa" 0, [1]),
          (outFilename "q" 0 (some "seq") ("-" ++ String.mk (fixedDigits 8 2)) "bbbbbbbb" 0, [2])]
        [("q", String.mk (fixedDigits 8 2))]
      = .ok ([(outFilename "q" 0 (some "seq") ("-" ++ String.mk (fixedDigits 8 1)) "aaaaaaaa" 0, [1]),
          (outFilename "q" 0 (some "seq") ("-" ++ String.mk (fixedDigits 8 2)) "bbbbbbbb" 0, [2]),
          (outFilename "q" 0 (some "seq") ("-" ++ String.mk (fixedDigits 8 3)) "cccccccc" 0, [3])],
          [("q", String.mk (fixedDigits 8 3))])
    ∧ inpOnce "q"
        [(outFilename "q" 0 (some "seq") ("-" ++ String.mk (fixedDigits 8 1)) "aaaaaaaa" 0, [1]),
          (outFilename "q" 0 (some "seq") ("-" ++ String.mk (fixedDigits 8 2)) "bbbbbbbb" 0, [2]),
          (outFilename "q" 0 (some "seq") ("-" ++ String.mk (fixedDigits 8 3)) "cccccccc" 0, [3])]
        noLocks 0
      = .ok ([1],
          [(outFilename "q" 0 (some "seq") ("-" ++ String.mk (fixedDigits 8 2)) "bbbbbbbb" 0, [2]),
            (outFilename "q" 0 (some "seq") ("-" ++ String.mk (fixedDigits 8 3)) "cccccccc" 0, [3])])
    ∧ inpOnce "q"
        [(outFilename "q" 0 (some "seq") ("-" ++ String.mk (fixedDigits 8 2)) "bbbbbbbb" 0, [2]),
          (outFilename "q" 0 (some "seq") ("-" ++ String.mk (fixedDigits 8 3)) "cccccccc" 0, [3])]
        noLocks 0
      = .ok ([2],
          [(outFilename "q" 0 (some "seq") ("-" ++ String.mk (fixedDigits 8 3)) "cccccccc" 0, [3])])
    ∧ inpOnce "q"
        [(outFilename "q" 0 (some "seq") ("-" ++ String.mk (fixedDigits 8 3)) "cccccccc" 0, [3])]
        noLocks 0
      = .ok ([3], []) :=
  fifo_order "q" "aaaaaaaa" "bbbbbbbb" "cccccccc" [1] [2] [3] 0 (by decide) (by decide)
    (by decide) ⟨'a', by decide, by decide⟩ (by decide) ⟨'b', by decide, by decide⟩
    (by decide) ⟨'c', by decide, by decide⟩

/-- Counterexample to C2 as stated: for the hidden name `.x` the seq-mode
write succeeds and takes sequence number 1, but the subsequent non-blocking
`inp` reports `TupleNotFound` — the entry's identifier starts with `.` and
every enumeration skips it, so nothing is ever retrieved, in any order. -/
theorem fifo_hidden_cex :
    out ".x" [1] 0 (some "seq") 0 "deadbeef" noLocks [] []
      = .ok ([(".x-00000001-deadbeef", [1])], [(".x", "00000001")])
    ∧ inpOnce ".x" [(".x-00000001-deadbeef", [1])] noLocks 0 = .error .notFound := by
  refine ⟨rfl, rfl⟩

end Linda
